import Mathlib

/-!
# REEase Chrome extension: the summarization handlers

A shallow embedding of `src/chrome-extension/background.js` (the message listener,
`handleSummarization`, `handleJsonSummarization`), of the context-menu listener of
`content.js` and of the three entry points of `popup.js` that send a `summarize` message.

Conventions of the embedding.

* A handler is a function of the endpoint's behaviour and of the request; it returns the
  message passed to `sendResponse` together with the list of requests it passed to `fetch`,
  in order.
* The endpoint is a function from the number of the `fetch` call within one handler run and
  the request to the outcome of that call, so that equal requests may be answered differently.
* An exception is identified with the value of its `message` property, the only part the
  `catch` blocks read. The wording of a `TypeError` raised by the engine is not fixed by the
  source, so such a message is kept symbolic.
* Strings are sequences of code points. The characters the source tests for (`*`, `#`, line
  feed, white space, `.`) are single UTF-16 code units, so deleting or replacing them acts the
  same on both representations.
-/

namespace REEase

/-! ## JavaScript values -/

/-- JavaScript values as they occur in message fields and in parsed JSON bodies. A number
carries the exact value of the double. `obj` lists the own properties of a plain object. -/
inductive JSVal where
  | undefined
  | null
  | bool (b : Bool)
  | num (q : ℚ)
  | str (s : String)
  | arr (items : List JSVal)
  | obj (props : List (String × JSVal))

/-- The reason a `TypeError` was raised by the engine. -/
inductive TypeErrorKind where
  /-- Reading property `property` of `undefined` or `null`. -/
  | readOfNullish (property : String)
  /-- Calling `callee`, whose value is not a function. -/
  | notAFunction (callee : String)
  deriving DecidableEq, Repr

/-- The `message` of a caught exception. -/
inductive ErrorMessage where
  /-- The message of an `Error` built by the source with `new Error(s)`, or of the error a
  rejected promise of `fetch` or `response.json()` carries. -/
  | text (s : String)
  /-- The message of a `TypeError` raised by the engine (implementation-defined wording). -/
  | engine (kind : TypeErrorKind)
  deriving DecidableEq, Repr

deriving instance DecidableEq for Except

/-- ToBoolean. -/
def JSVal.truthy : JSVal → Bool
  | .undefined => false
  | .null => false
  | .bool b => b
  | .num q => decide (q ≠ 0)
  | .str s => decide (s ≠ "")
  | .arr _ => true
  | .obj _ => true

/-- Strict equality `v === s` of a value with a string. -/
def JSVal.strictEqStr (v : JSVal) (s : String) : Bool :=
  match v with
  | .str x => decide (x = s)
  | _ => false

/-- The array index a property key denotes, if any: the key is the canonical decimal numeral
of an integer from 0 to 2^32 - 2. -/
def arrayIndex? (key : String) : Option Nat :=
  if key.data ≠ [] ∧ key.data.all Char.isDigit = true then
    let n := key.data.foldl (fun n c => n * 10 + (c.toNat - '0'.toNat)) 0
    if toString n = key ∧ n < 4294967295 then some n else none
  else none

/-- Property read `v[key]`, for a key that no built-in prototype defines (the handlers read
`candidates`, `0`, `content`, `parts` and `text`). Reading from `undefined` or `null` raises a
`TypeError`; a missing property reads as `undefined`. An indexed read of a string yields the
one-character string at that position. -/
def JSVal.get (v : JSVal) (key : String) : Except ErrorMessage JSVal :=
  match v with
  | .undefined => .error (.engine (.readOfNullish key))
  | .null => .error (.engine (.readOfNullish key))
  | .bool _ => .ok .undefined
  | .num _ => .ok .undefined
  | .str s =>
    match arrayIndex? key with
    | some n =>
      match s.data.get? n with
      | some c => .ok (.str (String.singleton c))
      | none => .ok .undefined
    | none => .ok .undefined
  | .arr items =>
    match arrayIndex? key with
    | some n => .ok (items.getD n .undefined)
    | none => .ok .undefined
  | .obj props => .ok ((props.lookup key).getD .undefined)

/-- The method call `s.replace(/c/g, replacement)` on a string, for a pattern that is the
single literal character `c`: every occurrence of `c` is replaced. -/
def stringReplace (s : String) (c : Char) (replacement : String) : String :=
  ⟨s.data.flatMap fun x => if x = c then replacement.data else [x]⟩

/-- The method call `v.replace(/c/g, replacement)` on an arbitrary value, where `callee` is
the source text of the callee: only a string has a `replace` method. -/
def JSVal.replace (v : JSVal) (callee : String) (c : Char) (replacement : String) :
    Except ErrorMessage String :=
  match v with
  | .undefined => .error (.engine (.readOfNullish "replace"))
  | .null => .error (.engine (.readOfNullish "replace"))
  | .str s => .ok (stringReplace s c replacement)
  | _ => .error (.engine (.notAFunction callee))

/-! ## The generation endpoint -/

/-- The arguments of one `fetch` call: the URL and the prompt, which the body
`{contents: [{parts: [{text: prompt}]}]}` wraps. Method and headers are constant. -/
structure FetchRequest where
  url : String
  prompt : String
  deriving DecidableEq, Repr

/-- A response the promise of `fetch` resolves to. `json` is the outcome of
`response.json()`: the parsed body, or the message of the error it rejects with. -/
structure HttpResponse where
  status : Nat
  statusText : String
  json : Except String JSVal

/-- The `ok` property of a response: the status is in the range 200 to 299. -/
def HttpResponse.ok (r : HttpResponse) : Bool :=
  decide (200 ≤ r.status) && decide (r.status ≤ 299)

/-- The outcome of one `fetch` call. -/
inductive FetchOutcome where
  /-- The promise rejects (transport failure) with an error of this message. -/
  | rejected (message : String)
  /-- The promise resolves to a response. -/
  | responded (response : HttpResponse)

/-- The behaviour of the endpoint during one handler run: the outcome of the call with the
given number (from 0) and request. -/
abbrev Endpoint := Nat → FetchRequest → FetchOutcome

/-- The URL of the endpoint without the key. -/
def apiUrl : String :=
  "https://generativelanguage.googleapis.com/v1beta/models/gemini-1.5-flash-latest:generateContent?key="

/-- The `fetch` call of lines 51-63 and 114-126. -/
def generateContentRequest (apiKey prompt : String) : FetchRequest :=
  { url := apiUrl ++ apiKey, prompt := prompt }

/-! ## Reading the generated text -/

/-- The condition `data.candidates && data.candidates[0] && data.candidates[0].content`
of lines 71 and 130. -/
def hasCandidateContent (data : JSVal) : Except ErrorMessage Bool := do
  let candidates ← data.get "candidates"
  if candidates.truthy then
    let first ← candidates.get "0"
    if first.truthy then
      let content ← first.get "content"
      pure content.truthy
    else pure false
  else pure false

/-- The expression `data.candidates[0].content.parts[0].text` of lines 72 and 131. -/
def generatedText (data : JSVal) : Except ErrorMessage JSVal := do
  let candidates ← data.get "candidates"
  let first ← candidates.get "0"
  let content ← first.get "content"
  let parts ← content.get "parts"
  let part ← parts.get "0"
  part.get "text"

/-! ## handleSummarization -/

/-- The message `{ text, compression, apiKey }` of a `summarize` request. -/
structure SummarizeRequest where
  text : String
  compression : JSVal
  apiKey : String

/-- The argument of `sendResponse` in `handleSummarization`: `{ success: true, summary }` or
`{ success: false, error }`. -/
inductive SummarizeResponse where
  | success (summary : String)
  | failure (error : ErrorMessage)
  deriving DecidableEq, Repr

/-- The prompt of lines 39-49. -/
def summarizationPrompt (compression : JSVal) (text : String) : String :=
  if compression.strictEqStr "25%" then
    "Summarize the following text to 25% of its original length. Keep only the most essential information:\n\n" ++ text
  else if compression.strictEqStr "50%" then
    "Summarize the following text to 50% of its original length. Maintain key points and important details:\n\n" ++ text
  else if compression.strictEqStr "75%" then
    "Summarize the following text to 75% of its original length. Preserve most details while making it more concise:\n\n" ++ text
  else
    "Create a clear and concise summary of the following text, maintaining all important information:\n\n" ++ text

/-- Lines 69-78: the summary read from the parsed body and cleaned, or the exception. -/
def summaryOfBody (data : JSVal) : Except ErrorMessage String := do
  if (← hasCandidateContent data) then
    let text ← generatedText data
    let summary ← text.replace "summary.replace" '*' ""
    pure (stringReplace summary '#' "")
  else
    throw (.text "No summary generated")

/-- The body of the `try` block of `handleSummarization` after the `fetch` call. -/
def summaryOfOutcome (outcome : FetchOutcome) : Except ErrorMessage String :=
  match outcome with
  | .rejected message => .error (.text message)
  | .responded response =>
    if response.ok then
      match response.json with
      | .error message => .error (.text message)
      | .ok data => summaryOfBody data
    else
      .error (.text ("API request failed: " ++ toString response.status ++ " " ++
        response.statusText))

/-- The handler `handleSummarization`: the response sent and the requests fetched. -/
def handleSummarization (fetch : Endpoint) (request : SummarizeRequest) :
    SummarizeResponse × List FetchRequest :=
  let prompt := summarizationPrompt request.compression request.text
  let sent := generateContentRequest request.apiKey prompt
  match summaryOfOutcome (fetch 0 sent) with
  | .ok summary => (.success summary, [sent])
  | .error error => (.failure error, [sent])

/-! ## handleJsonSummarization -/

/-- An integer of magnitude below 2^53. A double holds such an integer exactly, and
Number::toString prints it as its decimal numeral, with a minus sign when negative. -/
structure SafeInteger where
  value : Int
  safe : value.natAbs < 9007199254740992
  deriving DecidableEq, Repr

/-- The value of the property `thread_id` of a record of the parsed file when it is present:
null, a boolean, a number that is a safe integer, or a string. Numbers with a fraction or of
magnitude 2^53 and above, arrays and objects are not represented. -/
inductive ThreadId where
  | null
  | bool (b : Bool)
  | num (n : SafeInteger)
  | str (s : String)
  deriving DecidableEq, Repr

/-- ToPropertyKey: the string under which `threadGroups[threadId]` reads and writes. -/
def ThreadId.toPropertyKey : ThreadId → String
  | .null => "null"
  | .bool b => if b then "true" else "false"
  | .num n => toString n.value
  | .str s => s

/-- An element of `jsonData`. `thread_id` is `none` when the property is absent or undefined;
`body` is `none` when the property is absent, undefined or null, and a string otherwise. -/
structure ThreadRecord where
  thread_id : Option ThreadId
  body : Option String
  deriving DecidableEq, Repr

/-- The expression `item.body || ''` of line 95. -/
def ThreadRecord.bodyOrEmpty (item : ThreadRecord) : String :=
  match item.body with
  | some body => if body ≠ "" then body else ""
  | none => ""

/-- The property key of a record, when its `thread_id` is not undefined (line 97). -/
def ThreadRecord.key? (item : ThreadRecord) : Option String :=
  item.thread_id.map ThreadId.toPropertyKey

/-- The names of the properties of `Object.prototype`, which the object literal of line 92
inherits. Each holds a function, except `__proto__`, which reads as `Object.prototype`. -/
def objectPrototypeKeys : List String :=
  ["constructor", "__defineGetter__", "__defineSetter__", "hasOwnProperty",
   "__lookupGetter__", "__lookupSetter__", "isPrototypeOf", "propertyIsEnumerable",
   "toString", "valueOf", "__proto__", "toLocaleString"]

/-- The object `threadGroups`: its own properties in the order of their creation, each
holding the array of bodies pushed so far. -/
abbrev ThreadGroups := List (String × List String)

/-- The result of reading `threadGroups[threadId]`. -/
inductive GroupLookup where
  /-- An own property, holding an array. -/
  | own (bodies : List String)
  /-- A property inherited from `Object.prototype`: a function or an object without `push`. -/
  | inherited
  /-- No such property: `undefined`. -/
  | absent
  deriving DecidableEq, Repr

/-- The read `threadGroups[threadId]` of lines 98 and 101. -/
def readGroup (threadGroups : ThreadGroups) (key : String) : GroupLookup :=
  match threadGroups.lookup key with
  | some bodies => .own bodies
  | none => if key ∈ objectPrototypeKeys then .inherited else .absent

/-- The call `threadGroups[threadId].push(body)` on an own property. -/
def pushBody (threadGroups : ThreadGroups) (key body : String) : ThreadGroups :=
  threadGroups.map fun entry => if entry.1 = key then (entry.1, entry.2 ++ [body]) else entry

/-- The callback of `jsonData.forEach` (lines 93-103). An array and an inherited value are
both truthy, so a list is created only when the property is absent; `push` is not a function
on an inherited value. -/
def groupRecord (threadGroups : ThreadGroups) (item : ThreadRecord) :
    Except ErrorMessage ThreadGroups :=
  let body := item.bodyOrEmpty
  match item.thread_id with
  | none => .ok threadGroups
  | some threadId =>
    let key := threadId.toPropertyKey
    match readGroup threadGroups key with
    | .own _ => .ok (pushBody threadGroups key body)
    | .inherited => .error (.engine (.notAFunction "threadGroups[threadId].push"))
    | .absent => .ok (threadGroups ++ [(key, [body])])

/-- The grouping step, lines 91-103. -/
def groupThreads (jsonData : List ThreadRecord) : Except ErrorMessage ThreadGroups :=
  jsonData.foldlM groupRecord []

/-- The numeric value by which an array-index key is ordered. -/
def indexValue (key : String) : Nat := (arrayIndex? key).getD 0

/-- Order of two properties by the numeric value of their keys. -/
def indexLE (a b : String × List String) : Prop := indexValue a.1 ≤ indexValue b.1

instance : DecidableRel indexLE := fun a b => Nat.decLe (indexValue a.1) (indexValue b.1)

instance : IsTotal (String × List String) indexLE := ⟨fun _ _ => Nat.le_total _ _⟩

instance : IsTrans (String × List String) indexLE := ⟨fun _ _ _ h₁ h₂ => Nat.le_trans h₁ h₂⟩

/-- The call `Object.entries(threadGroups)`: the properties whose key is an array index, in
ascending numeric order, then the other properties in the order of their creation. -/
def objectEntries (threadGroups : ThreadGroups) : ThreadGroups :=
  (threadGroups.filter fun entry => (arrayIndex? entry.1).isSome).insertionSort indexLE ++
    threadGroups.filter fun entry => !(arrayIndex? entry.1).isSome

/-- The code points `String.prototype.trim` strips: WhiteSpace and LineTerminator. -/
def isWhiteSpace (c : Char) : Bool :=
  c.toNat ∈ [0x9, 0xA, 0xB, 0xC, 0xD, 0x20, 0xA0, 0x1680, 0x2000, 0x2001, 0x2002, 0x2003,
    0x2004, 0x2005, 0x2006, 0x2007, 0x2008, 0x2009, 0x200A, 0x2028, 0x2029, 0x202F, 0x205F,
    0x3000, 0xFEFF]

/-- The method `trim` of a string. -/
def trim (s : String) : String :=
  ⟨((s.data.dropWhile isWhiteSpace).reverse.dropWhile isWhiteSpace).reverse⟩

/-- The expression `bodies.join(' ').trim()` of line 109. -/
def combinedText (bodies : List String) : String :=
  trim (String.intercalate " " bodies)

/-- The prompt of line 112. -/
def threadPrompt (combinedText : String) : String :=
  "Summarize this email thread in 60 words or less. Focus on key decisions, actions, and important details. Remove formatting characters and line breaks:\n\n" ++ combinedText

/-- An element of `summaries`: `{ thread_id: threadId, body: summary }`. -/
structure ThreadSummary where
  thread_id : String
  body : String
  deriving DecidableEq, Repr

/-- The argument of `sendResponse` in `handleJsonSummarization`:
`{ success: true, summaries }` or `{ success: false, error }`. -/
inductive JsonResponse where
  | success (summaries : List ThreadSummary)
  | failure (error : ErrorMessage)
  deriving DecidableEq, Repr

/-- Lines 128-138 for one thread: the cleaned summary to push, `none` when nothing is pushed,
or the exception. -/
def threadSummaryOfOutcome (outcome : FetchOutcome) : Except ErrorMessage (Option String) :=
  match outcome with
  | .rejected message => .error (.text message)
  | .responded response =>
    if response.ok then
      match response.json with
      | .error message => .error (.text message)
      | .ok data => do
        if (← hasCandidateContent data) then
          let text ← generatedText data
          let summary ← text.replace "summary.replace" '*' ""
          pure (some (stringReplace (stringReplace summary '#' "") '\n' " "))
        else
          pure none
    else
      .ok none

/-- The variables the loop of lines 108-140 updates: `summaries` and the requests fetched. -/
structure LoopState where
  summaries : List ThreadSummary
  sent : List FetchRequest

/-- The loop of lines 108-140 over the entries still to process: the final `summaries`, or the
exception that leaves the loop, and the requests fetched. -/
def processThreads (fetch : Endpoint) (apiKey : String) :
    List (String × List String) → LoopState →
      Except ErrorMessage (List ThreadSummary) × List FetchRequest
  | [], state => (.ok state.summaries, state.sent)
  | (threadId, bodies) :: rest, state =>
    if combinedText bodies ≠ "" then
      let sent := generateContentRequest apiKey (threadPrompt (combinedText bodies))
      match threadSummaryOfOutcome (fetch state.sent.length sent) with
      | .error error => (.error error, state.sent ++ [sent])
      | .ok none => processThreads fetch apiKey rest ⟨state.summaries, state.sent ++ [sent]⟩
      | .ok (some summary) =>
        processThreads fetch apiKey rest
          ⟨state.summaries ++ [⟨threadId, summary⟩], state.sent ++ [sent]⟩
    else
      processThreads fetch apiKey rest state

/-- The message `{ jsonData, apiKey }` of a `summarizeJson` request. -/
structure JsonRequest where
  jsonData : List ThreadRecord
  apiKey : String

/-- The handler `handleJsonSummarization`: the response sent and the requests fetched. -/
def handleJsonSummarization (fetch : Endpoint) (request : JsonRequest) :
    JsonResponse × List FetchRequest :=
  match groupThreads request.jsonData with
  | .error error => (.failure error, [])
  | .ok threadGroups =>
    match processThreads fetch request.apiKey (objectEntries threadGroups) ⟨[], []⟩ with
    | (.ok summaries, sent) => (.success summaries, sent)
    | (.error error, sent) => (.failure error, sent)

/-! ## Message routing -/

/-- The branch the message listener of `background.js` (lines 21-32) takes. -/
inductive Handler where
  | summarization
  | jsonSummarization
  | storeSelectedText
  | ignored
  deriving DecidableEq, Repr

/-- The message listener of `background.js`, lines 21-32: the branch selected by the
`action` of the message. -/
def onMessage (action : String) : Handler :=
  if action = "summarize" then .summarization
  else if action = "summarizeJson" then .jsonSummarization
  else if action = "openPopupWithText" then .storeSelectedText
  else .ignored

/-- The context-menu listener of `background.js`, lines 13-18: the action of the message sent
to the tab, if any. -/
def contextMenuOnClicked (menuItemId : String) : Option String :=
  if menuItemId = "summarizeSelection" then some "summarizeSelection" else none

/-- A message of the content script to the background script: `{ action, text }`. -/
structure ContentMessage where
  action : String
  text : String
  deriving DecidableEq, Repr

/-- The second message listener of `content.js`, lines 12-23, where `selection` is
`window.getSelection().toString()`: the message sent to the background script, if any. -/
def contentOnMessage (action : String) (selection : String) : Option ContentMessage :=
  if action = "summarizeSelection" then
    let selectedText := trim selection
    if selectedText ≠ "" then some ⟨"summarizeFromContext", selectedText⟩ else none
  else none

/-! ## The entry points of the popup -/

/-- The message `summarizeText` of `popup.js` sends (lines 103-108). -/
structure SummarizeMessage where
  action : String
  text : String
  compression : String
  apiKey : String
  deriving DecidableEq, Repr

/-- What an entry point of the popup does. -/
inductive PopupEffect where
  /-- A call `showMessage(message, type)`; nothing is sent. -/
  | showMessage (message type : String)
  /-- A call `chrome.runtime.sendMessage` with a `summarize` message. -/
  | sendMessage (message : SummarizeMessage)
  /-- The `json` branch of `extractTextFromFile`, which goes on to `summarizeJsonData`. -/
  | summarizeJsonData (content : String)
  deriving DecidableEq, Repr

/-- The function `summarizeText` of `popup.js` (lines 93-116), where `geminiApiKey` is the
stored key, if any. -/
def summarizeText (geminiApiKey : Option String) (text compression : String) : PopupEffect :=
  match geminiApiKey with
  | none => .showMessage "Please set your Gemini API key first" "error"
  | some apiKey =>
    if apiKey ≠ "" then .sendMessage ⟨"summarize", text, compression, apiKey⟩
    else .showMessage "Please set your Gemini API key first" "error"

/-- The click listener of `summarize-text` (lines 40-50), where `value` is the content of the
input field. -/
def summarizeTextClick (geminiApiKey : Option String) (value compression : String) :
    PopupEffect :=
  let text := trim value
  if text ≠ "" then summarizeText geminiApiKey text compression
  else .showMessage "Please enter some text to summarize" "error"

/-- The click listener of `summarize-selected` (lines 80-90). -/
def summarizeSelectedClick (geminiApiKey : Option String) (value compression : String) :
    PopupEffect :=
  let text := trim value
  if text ≠ "" then summarizeText geminiApiKey text compression
  else .showMessage "No text to summarize. Please get selected text first." "error"

/-- The expression `file.name.split('.').pop().toLowerCase()` of line 121: the part of the
name after its last dot, in lower case. Only the letters A to Z are lowered: no other code
point lower-cases to a letter of `json` or `txt`, the strings the result is compared with. -/
def fileType (name : String) : String :=
  ⟨((name.data.reverse.takeWhile fun c => c ≠ '.').reverse).map Char.toLower⟩

/-- The function `extractTextFromFile` of `popup.js` (lines 119-141), where `content` is the
text the reader loads from the file. -/
def extractTextFromFile (geminiApiKey : Option String) (name content compression : String) :
    PopupEffect :=
  if fileType name = "json" then .summarizeJsonData content
  else if fileType name = "txt" then summarizeText geminiApiKey content compression
  else .showMessage
    "File type not supported in extension. Please use the web app for PDF, DOCX, and PPTX files."
    "error"

/-- The request `handleSummarization` receives when the listener dispatches a message of the
popup. -/
def SummarizeMessage.toRequest (message : SummarizeMessage) : SummarizeRequest :=
  { text := message.text, compression := .str message.compression, apiKey := message.apiKey }

/-! ## Notions used in the statements on grouping -/

/-- The bodies of the records whose `thread_id` has the property key `key`, in the order of
the records. -/
def bodiesOf (records : List ThreadRecord) (key : String) : List String :=
  (records.filter fun record => record.key? = some key).map ThreadRecord.bodyOrEmpty

/-- The position of the first record whose `thread_id` has the property key `key` (the
number of records when there is none). -/
def firstOccurrence : List ThreadRecord → String → Nat
  | [], _ => 0
  | record :: rest, key =>
    if record.key? = some key then 0 else firstOccurrence rest key + 1

/-- No record has a `thread_id` whose property key names a property of `Object.prototype`. -/
def InheritsNoKey (records : List ThreadRecord) : Prop :=
  ∀ record ∈ records, ∀ key ∈ record.key?, key ∉ objectPrototypeKeys

instance (records : List ThreadRecord) : Decidable (InheritsNoKey records) := by
  unfold InheritsNoKey
  infer_instance

/-- The order of the keys of `Object.entries(threadGroups)`: array indices ascending, before
all other keys, which are in the order of their first occurrence in the records. -/
def precedes (records : List ThreadRecord) (a b : String) : Prop :=
  match arrayIndex? a, arrayIndex? b with
  | some m, some n => m < n
  | some _, none => True
  | none, some _ => False
  | none, none => firstOccurrence records a < firstOccurrence records b

instance (records : List ThreadRecord) (a b : String) : Decidable (precedes records a b) := by
  unfold precedes
  split <;> infer_instance

/-- The state of `threadGroups` after the records `processed` have been visited. -/
structure GroupInv (processed : List ThreadRecord) (groups : ThreadGroups) : Prop where
  nodup : (groups.map Prod.fst).Nodup
  mem_iff : ∀ key, key ∈ groups.map Prod.fst ↔ ∃ record ∈ processed, record.key? = some key
  bodies : ∀ key bodies, (key, bodies) ∈ groups → bodies = bodiesOf processed key
  order : (groups.map Prod.fst).Pairwise fun a b =>
    firstOccurrence processed a < firstOccurrence processed b
  count : (groups.map fun entry => entry.2.length).sum
    = (processed.filter fun record => record.thread_id.isSome).length

/-! ## Notions used in the statements on the loop over the groups -/

/-- The code points the ECMAScript standard names WhiteSpace or LineTerminator, the ones
`String.prototype.trim` removes: U+0009 to U+000D, U+0020, U+00A0, U+1680, U+2000 to U+200A,
U+2028, U+2029, U+202F, U+205F, U+3000 and U+FEFF. -/
def StrippedByTrim (c : Char) : Prop :=
  (0x9 ≤ c.toNat ∧ c.toNat ≤ 0xD) ∨ c.toNat = 0x20 ∨ c.toNat = 0xA0 ∨ c.toNat = 0x1680 ∨
    (0x2000 ≤ c.toNat ∧ c.toNat ≤ 0x200A) ∨ c.toNat = 0x2028 ∨ c.toNat = 0x2029 ∨
    c.toNat = 0x202F ∨ c.toNat = 0x205F ∨ c.toNat = 0x3000 ∨ c.toNat = 0xFEFF

/-- The groups for which the loop makes a request, in the order of the entries: those whose
combined text is not empty, each with its key and its request. -/
def attempted (apiKey : String) (entries : ThreadGroups) : List (String × FetchRequest) :=
  (entries.filter fun entry => decide (combinedText entry.2 ≠ "")).map fun entry =>
    (entry.1, generateContentRequest apiKey (threadPrompt (combinedText entry.2)))

/-- The call succeeds with the generated text `g`: the status is successful and the parsed
body holds the string `g` at `candidates[0].content.parts[0].text`. -/
def Succeeds (outcome : FetchOutcome) (g : String) : Prop :=
  ∃ response data, outcome = .responded response ∧ response.ok = true ∧
    response.json = .ok data ∧ generatedText data = .ok (.str g)

/-- The call fails in one of the two ways the loop passes over: the status is not successful,
or the parsed body lacks `candidates`, `candidates[0]` or `content`. -/
def Omitted (outcome : FetchOutcome) : Prop :=
  ∃ response, outcome = .responded response ∧
    (response.ok = false ∨
      ∃ data, response.json = .ok data ∧ hasCandidateContent data = .ok false)

/-- The generated text of a call that succeeds, `none` for any other outcome. -/
def generatedString (outcome : FetchOutcome) : Option String :=
  match outcome with
  | .rejected _ => none
  | .responded response =>
    if response.ok then
      match response.json with
      | .error _ => none
      | .ok data =>
        match generatedText data with
        | .ok (.str g) => some g
        | _ => none
    else none

/-- The three replacements of line 132 on a string. -/
def cleanThreadSummary (g : String) : String :=
  stringReplace (stringReplace (stringReplace g '*' "") '#' "") '\n' " "

/-- The entries of `summaries` when no call raises an exception: one for each attempted group
whose call, numbered from `start` on, succeeds. -/
def expectedSummaries (fetch : Endpoint) (calls : List (String × FetchRequest)) (start : Nat) :
    List ThreadSummary :=
  (calls.enumFrom start).filterMap fun call =>
    (generatedString (fetch call.1 call.2.2)).map fun g => ⟨call.2.1, cleanThreadSummary g⟩

/-! ## Sample records -/

/-- The thread identifier `1`. -/
def idOne : ThreadId := .num ⟨1, by decide⟩

/-- The thread identifier `2`. -/
def idTwo : ThreadId := .num ⟨2, by decide⟩

/-- The thread identifier `7`. -/
def idSeven : ThreadId := .num ⟨7, by decide⟩

/-- The thread identifier `-12`. -/
def idMinusTwelve : ThreadId := .num ⟨-12, by decide⟩

/-- The records `[{thread_id: 1, body: "a"}, {thread_id: 1, body: "b"},
{thread_id: 2, body: ""}, {thread_id: undefined, body: "x"}]`. -/
def sampleRecords : List ThreadRecord :=
  [⟨some idOne, some "a"⟩, ⟨some idOne, some "b"⟩, ⟨some idTwo, some ""⟩,
    ⟨none, some "x"⟩]

/-- The records `[{thread_id: 1, body: "a"}, {thread_id: "1", body: "b"}]`, whose thread
identifiers differ and have the same property key. -/
def mixedKeyRecords : List ThreadRecord :=
  [⟨some idOne, some "a"⟩, ⟨some (.str "1"), some "b"⟩]

/-- The records `[{thread_id: "u", body: " "}, {thread_id: "u", body: "\t\n"}]`, whose bodies
hold white space only. -/
def blankRecords : List ThreadRecord :=
  [⟨some (.str "u"), some " "⟩, ⟨some (.str "u"), some "\t\n"⟩]

/-- The records `[{thread_id: 7, body: "  a "}, {thread_id: 7, body: "b\n"}]`, whose joined
bodies begin and end with white space. -/
def paddedRecords : List ThreadRecord :=
  [⟨some idSeven, some "  a "⟩, ⟨some idSeven, some "b\n"⟩]

/-- The records `[{thread_id: "b", body: "x"}, {thread_id: 2, body: "y"},
{thread_id: "a", body: "z"}, {thread_id: 1, body: "w"}]`. -/
def interleavedRecords : List ThreadRecord :=
  [⟨some (.str "b"), some "x"⟩, ⟨some idTwo, some "y"⟩, ⟨some (.str "a"), some "z"⟩,
    ⟨some idOne, some "w"⟩]

/-- The records `[{thread_id: 2, body: "x"}, {thread_id: 1, body: "y"}]`. -/
def descendingRecords : List ThreadRecord :=
  [⟨some idTwo, some "x"⟩, ⟨some idOne, some "y"⟩]

/-! ## Sample endpoints and bodies -/

/-- The parsed body `{candidates: [{content: {parts: [{text: t}]}}]}`. -/
def bodyWithText (t : String) : JSVal :=
  .obj [("candidates", .arr [.obj [("content", .obj [("parts", .arr [.obj [("text", .str t)]])])]])]

/-- The parsed body `{candidates: [{content: {}}]}`: no `parts`. -/
def bodyWithoutParts : JSVal :=
  .obj [("candidates", .arr [.obj [("content", .obj [])]])]

/-- The parsed body `{candidates: [{content: {parts: []}}]}`: empty `parts`. -/
def bodyWithEmptyParts : JSVal :=
  .obj [("candidates", .arr [.obj [("content", .obj [("parts", .arr [])])]])]

/-- The parsed body `{candidates: [{content: {parts: [{}]}}]}`: no `text`. -/
def bodyWithoutText : JSVal :=
  .obj [("candidates", .arr [.obj [("content", .obj [("parts", .arr [.obj []])])]])]

/-- An endpoint that answers every call with status 200 and the given parsed body. -/
def respondWith (data : JSVal) : Endpoint :=
  fun _ _ => .responded ⟨200, "OK", .ok data⟩

/-- An endpoint that answers every call with the given status and an empty object. -/
def respondStatus (status : Nat) (statusText : String) : Endpoint :=
  fun _ _ => .responded ⟨status, statusText, .ok (.obj [])⟩

/-- An endpoint every call to which fails in transport. -/
def rejectWith (message : String) : Endpoint :=
  fun _ _ => .rejected message

/-! ## Instructions of the four prompts (the text before the colon, lines 42-48) -/

/-- The instruction of line 42. -/
def instruction25 : String :=
  "Summarize the following text to 25% of its original length. Keep only the most essential information"

/-- The instruction of line 44. -/
def instruction50 : String :=
  "Summarize the following text to 50% of its original length. Maintain key points and important details"

/-- The instruction of line 46. -/
def instruction75 : String :=
  "Summarize the following text to 75% of its original length. Preserve most details while making it more concise"

/-- The instruction of line 48. -/
def instructionDefault : String :=
  "Create a clear and concise summary of the following text, maintaining all important information"

/-! ## Lemmas on values -/

theorem strictEqStr_iff (v : JSVal) (s : String) : v.strictEqStr s = true ↔ v = .str s := by
  cases v <;> simp [JSVal.strictEqStr]

theorem stringReplace_empty (s : String) (c : Char) :
    stringReplace s c "" = ⟨s.data.filter fun x => decide (x ≠ c)⟩ := by
  unfold stringReplace
  congr 1
  induction s.data with
  | nil => rfl
  | cons x xs ih =>
    by_cases h : x = c
    · simp [List.flatMap_cons, h, ih]
    · simp [List.flatMap_cons, h, ih]

theorem get_ok_ne_undefined {v w : JSVal} {key : String} (h : v.get key = .ok w) :
    v ≠ .undefined ∧ v ≠ .null := by
  cases v <;> simp [JSVal.get] at h ⊢

theorem get_ok_truthy {v w : JSVal} {key : String} (h : v.get key = .ok w)
    (hw : w ≠ .undefined) : v.truthy = true := by
  cases v with
  | undefined => simp [JSVal.get] at h
  | null => simp [JSVal.get] at h
  | bool b => simp [JSVal.get] at h; exact absurd h.symm hw
  | num q => simp [JSVal.get] at h; exact absurd h.symm hw
  | str s =>
    simp only [JSVal.truthy, decide_eq_true_eq]
    rintro rfl
    simp only [JSVal.get] at h
    split at h
    · simp at h
      exact absurd h.symm hw
    · simp at h
      exact absurd h.symm hw
  | arr items => rfl
  | obj props => rfl

theorem hasCandidateContent_of_text {data : JSVal} {g : String}
    (h : generatedText data = .ok (.str g)) : hasCandidateContent data = .ok true := by
  have h' := h
  simp only [generatedText, bind, Except.bind] at h'
  cases h1 : data.get "candidates" with
  | error e => simp [h1] at h'
  | ok candidates =>
    simp only [h1] at h'
    cases h2 : candidates.get "0" with
    | error e => simp [h2] at h'
    | ok first =>
      simp only [h2] at h'
      cases h3 : first.get "content" with
      | error e => simp [h3] at h'
      | ok content =>
        simp only [h3] at h'
        cases h4 : content.get "parts" with
        | error e => simp [h4] at h'
        | ok parts =>
          simp only [h4] at h'
          have hparts : parts ≠ .undefined := by
            rintro rfl
            simp [JSVal.get] at h'
          have hcontent : content ≠ .undefined := (get_ok_ne_undefined h4).1
          have hfirst : first ≠ .undefined := (get_ok_ne_undefined h3).1
          have t1 : candidates.truthy = true := get_ok_truthy h2 hfirst
          have t2 : first.truthy = true := get_ok_truthy h3 hcontent
          have t3 : content.truthy = true := get_ok_truthy h4 hparts
          simp [hasCandidateContent, bind, Except.bind, h1, h2, h3, t1, t2, t3, pure,
            Except.pure]

theorem summaryOfBody_of_text {data : JSVal} {g : String}
    (h : generatedText data = .ok (.str g)) :
    summaryOfBody data = .ok (stringReplace (stringReplace g '*' "") '#' "") := by
  simp [summaryOfBody, hasCandidateContent_of_text h, h, bind, Except.bind, JSVal.replace,
    pure, Except.pure]

/-! ## Lemmas on the grouping step -/

theorem lookup_eq_none_iff_not_mem (groups : ThreadGroups) (key : String) :
    groups.lookup key = none ↔ key ∉ groups.map Prod.fst := by
  simp only [List.lookup_eq_none_iff, bne_iff_ne, ne_eq, List.mem_map, not_exists, not_and]
  constructor
  · intro h entry hentry heq
    exact h entry hentry heq.symm
  · intro h entry hentry heq
    exact h entry hentry heq.symm

theorem mem_of_lookup_eq_some {groups : ThreadGroups} {key : String} {bodies : List String}
    (h : groups.lookup key = some bodies) : (key, bodies) ∈ groups := by
  obtain ⟨l₁, l₂, rfl, _⟩ := List.lookup_eq_some_iff.mp h
  simp

theorem lookup_eq_some_of_mem {groups : ThreadGroups} {key : String} {bodies : List String}
    (hnodup : (groups.map Prod.fst).Nodup) (h : (key, bodies) ∈ groups) :
    groups.lookup key = some bodies := by
  induction groups with
  | nil => simp at h
  | cons entry rest ih =>
    obtain ⟨k, b⟩ := entry
    simp only [List.map_cons, List.nodup_cons, List.mem_map, not_exists, not_and] at hnodup
    rcases List.mem_cons.mp h with heq | hmem
    · cases heq
      simp
    · have hne : key ≠ k := by
        rintro rfl
        exact hnodup.1 (key, bodies) hmem rfl
      rw [List.lookup_cons]
      have : (key == k) = false := by simpa using hne
      rw [this]
      exact ih hnodup.2 hmem

theorem pushBody_keys (groups : ThreadGroups) (key body : String) :
    (pushBody groups key body).map Prod.fst = groups.map Prod.fst := by
  unfold pushBody
  rw [List.map_map]
  apply List.map_congr_left
  intro entry _
  simp only [Function.comp]
  split <;> rfl

theorem pushBody_of_not_mem {groups : ThreadGroups} {key : String} (body : String)
    (h : key ∉ groups.map Prod.fst) : pushBody groups key body = groups := by
  unfold pushBody
  conv_rhs => rw [← List.map_id groups]
  apply List.map_congr_left
  intro entry hentry
  have : entry.1 ≠ key := by
    rintro rfl
    exact h (List.mem_map_of_mem _ hentry)
  simp [this]

theorem pushBody_length_sum {groups : ThreadGroups} {key : String} (body : String)
    (hnodup : (groups.map Prod.fst).Nodup) (h : key ∈ groups.map Prod.fst) :
    ((pushBody groups key body).map fun entry => entry.2.length).sum
      = (groups.map fun entry => entry.2.length).sum + 1 := by
  induction groups with
  | nil => simp at h
  | cons entry rest ih =>
    obtain ⟨k, b⟩ := entry
    simp only [List.map_cons, List.nodup_cons] at hnodup
    by_cases hk : k = key
    · subst hk
      have hrest : pushBody rest k body = rest := pushBody_of_not_mem body hnodup.1
      have hcons : pushBody ((k, b) :: rest) k body = (k, b ++ [body]) :: pushBody rest k body := by
        simp [pushBody]
      rw [hcons, hrest]
      simp
      omega
    · have hmem : key ∈ rest.map Prod.fst := by
        simp only [List.map_cons, List.mem_cons] at h
        rcases h with h | h
        · exact absurd h.symm hk
        · exact h
      have hcons : pushBody ((k, b) :: rest) key body = (k, b) :: pushBody rest key body := by
        simp [pushBody, hk]
      rw [hcons]
      simp only [List.map_cons, List.sum_cons]
      rw [ih hnodup.2 hmem]
      omega

theorem mem_pushBody {groups : ThreadGroups} {key body k : String} {bodies : List String}
    (h : (k, bodies) ∈ pushBody groups key body) :
    ∃ old, (k, old) ∈ groups ∧ bodies = if k = key then old ++ [body] else old := by
  unfold pushBody at h
  obtain ⟨entry, hentry, heq⟩ := List.mem_map.mp h
  obtain ⟨k', old⟩ := entry
  by_cases hk : k' = key
  · simp only [hk, if_true] at heq
    cases heq
    exact ⟨old, hk ▸ hentry, by simp⟩
  · simp only [hk, if_false] at heq
    cases heq
    exact ⟨bodies, hentry, by simp [hk]⟩

theorem bodiesOf_append (processed : List ThreadRecord) (item : ThreadRecord) (key : String) :
    bodiesOf (processed ++ [item]) key
      = bodiesOf processed key ++ if item.key? = some key then [item.bodyOrEmpty] else [] := by
  unfold bodiesOf
  rw [List.filter_append, List.map_append]
  congr 1
  by_cases h : item.key? = some key <;> simp [List.filter_cons, h]

theorem firstOccurrence_append_of_mem {processed : List ThreadRecord} {key : String}
    (item : ThreadRecord) (h : ∃ record ∈ processed, record.key? = some key) :
    firstOccurrence (processed ++ [item]) key = firstOccurrence processed key ∧
      firstOccurrence processed key < processed.length := by
  induction processed with
  | nil => simp at h
  | cons record rest ih =>
    by_cases hrecord : record.key? = some key
    · simp [firstOccurrence, hrecord]
    · have hrest : ∃ r ∈ rest, r.key? = some key := by
        obtain ⟨r, hr, hkey⟩ := h
        rcases List.mem_cons.mp hr with rfl | hr
        · exact absurd hkey hrecord
        · exact ⟨r, hr, hkey⟩
      obtain ⟨h₁, h₂⟩ := ih hrest
      simp only [List.cons_append, firstOccurrence, hrecord, if_false, List.append_eq, h₁,
        List.length_cons]
      exact ⟨trivial, by omega⟩

theorem firstOccurrence_append_of_not_mem {processed : List ThreadRecord} {key : String}
    (item : ThreadRecord) (h : ¬ ∃ record ∈ processed, record.key? = some key) :
    processed.length ≤ firstOccurrence (processed ++ [item]) key := by
  induction processed with
  | nil => simp
  | cons record rest ih =>
    have hrecord : record.key? ≠ some key := fun hkey => h ⟨record, by simp, hkey⟩
    have hrest : ¬ ∃ r ∈ rest, r.key? = some key := by
      rintro ⟨r, hr, hkey⟩
      exact h ⟨r, List.mem_cons_of_mem _ hr, hkey⟩
    have := ih hrest
    simp only [List.cons_append, firstOccurrence, hrecord, if_false, List.append_eq,
      List.length_cons]
    omega

theorem exists_mem_append_singleton (processed : List ThreadRecord) (item : ThreadRecord)
    (key : String) :
    (∃ record ∈ processed ++ [item], record.key? = some key)
      ↔ (∃ record ∈ processed, record.key? = some key) ∨ item.key? = some key := by
  constructor
  · rintro ⟨record, hrecord, hkey⟩
    rcases List.mem_append.mp hrecord with h | h
    · exact Or.inl ⟨record, h, hkey⟩
    · rw [List.mem_singleton] at h
      exact Or.inr (h ▸ hkey)
  · rintro (⟨record, hrecord, hkey⟩ | hkey)
    · exact ⟨record, List.mem_append_left _ hrecord, hkey⟩
    · exact ⟨item, by simp, hkey⟩

theorem bodiesOf_eq_nil {processed : List ThreadRecord} {key : String}
    (h : ¬ ∃ record ∈ processed, record.key? = some key) : bodiesOf processed key = [] := by
  unfold bodiesOf
  rw [List.map_eq_nil_iff, List.filter_eq_nil_iff]
  intro record hrecord hkey
  exact h ⟨record, hrecord, by simpa using hkey⟩

theorem groupInv_nil : GroupInv [] [] where
  nodup := by simp
  mem_iff := by simp
  bodies := by simp
  order := by simp
  count := by simp

theorem GroupInv.order_append {processed : List ThreadRecord} {groups : ThreadGroups}
    (inv : GroupInv processed groups) (item : ThreadRecord) :
    (groups.map Prod.fst).Pairwise fun a b =>
      firstOccurrence (processed ++ [item]) a < firstOccurrence (processed ++ [item]) b := by
  refine List.Pairwise.imp_of_mem ?_ inv.order
  intro a b ha hb hab
  rw [(firstOccurrence_append_of_mem item ((inv.mem_iff a).mp ha)).1,
    (firstOccurrence_append_of_mem item ((inv.mem_iff b).mp hb)).1]
  exact hab

theorem groupRecord_inv {processed : List ThreadRecord} {groups groups' : ThreadGroups}
    {item : ThreadRecord} (inv : GroupInv processed groups)
    (h : groupRecord groups item = .ok groups') : GroupInv (processed ++ [item]) groups' := by
  unfold groupRecord at h
  cases htid : item.thread_id with
  | none =>
    simp only [htid] at h
    cases h
    have hkey : item.key? = none := by simp [ThreadRecord.key?, htid]
    refine ⟨inv.nodup, ?_, ?_, inv.order_append item, ?_⟩
    · intro key
      rw [inv.mem_iff, exists_mem_append_singleton]
      simp [hkey]
    · intro key bodies hmem
      rw [bodiesOf_append, inv.bodies key bodies hmem]
      simp [hkey]
    · rw [inv.count, List.filter_append]
      simp [List.filter_cons, htid]
  | some tid =>
    simp only [htid] at h
    have hkey : item.key? = some tid.toPropertyKey := by simp [ThreadRecord.key?, htid]
    cases hread : readGroup groups tid.toPropertyKey with
    | inherited => simp [hread] at h
    | own old =>
      simp only [hread] at h
      cases h
      have hlookup : groups.lookup tid.toPropertyKey = some old := by
        unfold readGroup at hread
        split at hread
        · rename_i b hb
          cases hread
          exact hb
        · split at hread <;> cases hread
      have hmem : tid.toPropertyKey ∈ groups.map Prod.fst :=
        List.mem_map.mpr ⟨_, mem_of_lookup_eq_some hlookup, rfl⟩
      refine ⟨?_, ?_, ?_, ?_, ?_⟩
      · rw [pushBody_keys]
        exact inv.nodup
      · intro key
        rw [pushBody_keys, inv.mem_iff, exists_mem_append_singleton]
        constructor
        · exact Or.inl
        · rintro (h | h)
          · exact h
          · rw [hkey] at h
            cases h
            exact (inv.mem_iff _).mp hmem
      · intro key bodies hbodies
        obtain ⟨prev, hprev, hnew⟩ := mem_pushBody hbodies
        rw [bodiesOf_append, ← inv.bodies key prev hprev, hnew, hkey]
        by_cases hk : key = tid.toPropertyKey
        · simp [hk]
        · have : tid.toPropertyKey ≠ key := fun h => hk h.symm
          simp [hk, this]
      · rw [pushBody_keys]
        exact inv.order_append item
      · rw [pushBody_length_sum _ inv.nodup hmem, inv.count, List.filter_append]
        simp [List.filter_cons, htid]
    | absent =>
      simp only [hread] at h
      cases h
      have hlookup : groups.lookup tid.toPropertyKey = none := by
        unfold readGroup at hread
        split at hread
        · cases hread
        · assumption
      have hnot : tid.toPropertyKey ∉ groups.map Prod.fst :=
        (lookup_eq_none_iff_not_mem _ _).mp hlookup
      have hnew : ¬ ∃ record ∈ processed, record.key? = some tid.toPropertyKey :=
        fun h => hnot ((inv.mem_iff _).mpr h)
      refine ⟨?_, ?_, ?_, ?_, ?_⟩
      · rw [List.map_append, List.nodup_append]
        refine ⟨inv.nodup, by simp, ?_⟩
        intro a ha hb
        simp only [List.map_cons, List.map_nil, List.mem_singleton] at hb
        exact hnot (hb ▸ ha)
      · intro key
        rw [List.map_append, List.mem_append, inv.mem_iff, exists_mem_append_singleton, hkey]
        simp [eq_comm]
      · intro key bodies hbodies
        rw [bodiesOf_append, hkey]
        rcases List.mem_append.mp hbodies with hold | hlast
        · have hne : tid.toPropertyKey ≠ key := by
            rintro rfl
            exact hnot (List.mem_map.mpr ⟨_, hold, rfl⟩)
          rw [← inv.bodies key bodies hold]
          simp [hne]
        · rw [List.mem_singleton] at hlast
          cases hlast
          rw [bodiesOf_eq_nil hnew]
          simp
      · rw [List.map_append, List.pairwise_append]
        refine ⟨inv.order_append item, by simp, ?_⟩
        intro a ha b hb
        simp only [List.map_cons, List.map_nil, List.mem_singleton] at hb
        subst hb
        have h₁ := firstOccurrence_append_of_mem item ((inv.mem_iff a).mp ha)
        have h₂ := firstOccurrence_append_of_not_mem item hnew
        omega
      · rw [List.map_append, List.sum_append, inv.count, List.filter_append]
        simp [List.filter_cons, htid]

theorem groupRecord_ok (groups : ThreadGroups) {item : ThreadRecord}
    (h : ∀ key ∈ item.key?, key ∉ objectPrototypeKeys) :
    ∃ groups', groupRecord groups item = .ok groups' := by
  unfold groupRecord
  cases htid : item.thread_id with
  | none => exact ⟨groups, rfl⟩
  | some tid =>
    have hkey : tid.toPropertyKey ∉ objectPrototypeKeys :=
      h _ (by simp [ThreadRecord.key?, htid])
    simp only []
    cases hread : readGroup groups tid.toPropertyKey with
    | own old => exact ⟨_, rfl⟩
    | absent => exact ⟨_, rfl⟩
    | inherited =>
      exfalso
      unfold readGroup at hread
      split at hread
      · cases hread
      · rw [if_neg hkey] at hread
        cases hread

theorem foldlM_groupRecord_inv {rest processed : List ThreadRecord}
    {groups groups' : ThreadGroups} (inv : GroupInv processed groups)
    (h : List.foldlM groupRecord groups rest = .ok groups') :
    GroupInv (processed ++ rest) groups' := by
  induction rest generalizing processed groups with
  | nil =>
    simp only [List.foldlM_nil, pure, Except.pure] at h
    cases h
    simpa using inv
  | cons item rest ih =>
    rw [List.foldlM_cons] at h
    cases hstep : groupRecord groups item with
    | error e => simp [hstep, bind, Except.bind] at h
    | ok next =>
      simp only [hstep, bind, Except.bind] at h
      have := ih (groupRecord_inv inv hstep) h
      simpa using this

theorem foldlM_groupRecord_ok {rest : List ThreadRecord} (groups : ThreadGroups)
    (h : InheritsNoKey rest) : ∃ groups', List.foldlM groupRecord groups rest = .ok groups' := by
  induction rest generalizing groups with
  | nil => exact ⟨groups, rfl⟩
  | cons item rest ih =>
    obtain ⟨next, hnext⟩ := groupRecord_ok groups (h item (by simp))
    obtain ⟨final, hfinal⟩ := ih next fun record hrecord => h record (List.mem_cons_of_mem _ hrecord)
    exact ⟨final, by simp [List.foldlM_cons, hnext, bind, Except.bind, hfinal]⟩

theorem groupThreads_inv {records : List ThreadRecord} {groups : ThreadGroups}
    (h : groupThreads records = .ok groups) : GroupInv records groups := by
  have := foldlM_groupRecord_inv groupInv_nil h
  simpa using this

theorem groupThreads_ok {records : List ThreadRecord} (h : InheritsNoKey records) :
    ∃ groups, groupThreads records = .ok groups :=
  foldlM_groupRecord_ok [] h

/-! ## Lemmas on the order of the entries -/

theorem arrayIndex?_canonical {key : String} {n : Nat} (h : arrayIndex? key = some n) :
    toString n = key := by
  unfold arrayIndex? at h
  split at h
  · simp only [] at h
    split at h
    · rename_i hcanon
      cases h
      exact hcanon.1
    · cases h
  · cases h

theorem objectEntries_perm (groups : ThreadGroups) : (objectEntries groups).Perm groups := by
  unfold objectEntries
  exact ((List.perm_insertionSort indexLE _).append_right _).trans
    (List.filter_append_perm _ groups)

theorem objectEntries_pairwise {records : List ThreadRecord} {groups : ThreadGroups}
    (inv : GroupInv records groups) :
    (objectEntries groups).Pairwise fun a b => precedes records a.1 b.1 := by
  unfold objectEntries
  rw [List.pairwise_append]
  have hmem : ∀ a ∈ List.insertionSort indexLE
      (groups.filter fun entry => (arrayIndex? entry.1).isSome), (arrayIndex? a.1).isSome := by
    intro a ha
    have := (List.perm_insertionSort indexLE _).mem_iff.mp ha
    exact (List.mem_filter.mp this).2
  refine ⟨?_, ?_, ?_⟩
  · have hsorted : List.Pairwise indexLE (List.insertionSort indexLE
        (groups.filter fun entry => (arrayIndex? entry.1).isSome)) :=
      List.sorted_insertionSort indexLE _
    have hnodup : List.Pairwise (fun a b : String × List String => a.1 ≠ b.1)
        (List.insertionSort indexLE
          (groups.filter fun entry => (arrayIndex? entry.1).isSome)) := by
      rw [← List.pairwise_map (f := Prod.fst) (R := fun a b : String => a ≠ b)]
      have h₁ : ((groups.filter fun entry => (arrayIndex? entry.1).isSome).map
          Prod.fst).Nodup :=
        inv.nodup.sublist ((List.filter_sublist _).map _)
      exact (((List.perm_insertionSort indexLE _).map Prod.fst).nodup_iff).mpr h₁
    refine List.Pairwise.imp_of_mem ?_ (hsorted.and hnodup)
    intro a b ha hb hab
    obtain ⟨m, hm⟩ := Option.isSome_iff_exists.mp (hmem a ha)
    obtain ⟨n, hn⟩ := Option.isSome_iff_exists.mp (hmem b hb)
    have hle : m ≤ n := by
      have := hab.1
      simpa [indexLE, indexValue, hm, hn] using this
    have hne : m ≠ n := by
      rintro rfl
      exact hab.2 ((arrayIndex?_canonical hm).symm.trans (arrayIndex?_canonical hn))
    simp only [precedes, hm, hn]
    omega
  · have horder : List.Pairwise
        (fun a b : String × List String => firstOccurrence records a.1 < firstOccurrence records b.1)
        groups :=
      (List.pairwise_map (f := Prod.fst)
        (R := fun a b : String => firstOccurrence records a < firstOccurrence records b)).mp
        inv.order
    refine List.Pairwise.imp_of_mem ?_
      (horder.filter fun entry => !(arrayIndex? entry.1).isSome)
    intro a b ha hb hab
    have ha' : arrayIndex? a.1 = none := by
      simpa using (List.mem_filter.mp ha).2
    have hb' : arrayIndex? b.1 = none := by
      simpa using (List.mem_filter.mp hb).2
    simp only [precedes, ha', hb']
    exact hab
  · intro a ha b hb
    obtain ⟨m, hm⟩ := Option.isSome_iff_exists.mp (hmem a ha)
    have hb' : arrayIndex? b.1 = none := by
      simpa using (List.mem_filter.mp hb).2
    simp only [precedes, hm, hb']

/-! ## Lemmas on the loop over the groups -/

theorem generatedString_of_succeeds {outcome : FetchOutcome} {g : String}
    (h : Succeeds outcome g) : generatedString outcome = some g := by
  obtain ⟨response, data, rfl, hok, hjson, htext⟩ := h
  simp [generatedString, hok, hjson, htext]

theorem generatedString_of_omitted {outcome : FetchOutcome} (h : Omitted outcome) :
    generatedString outcome = none := by
  obtain ⟨response, rfl, hok | ⟨data, hjson, hguard⟩⟩ := h
  · simp [generatedString, hok]
  · simp only [generatedString, hjson]
    split
    · split
      · rename_i g htext
        rw [hasCandidateContent_of_text htext] at hguard
        cases hguard
      · rfl
    · rfl

theorem threadSummaryOfOutcome_of_succeeds {outcome : FetchOutcome} {g : String}
    (h : Succeeds outcome g) :
    threadSummaryOfOutcome outcome = .ok (some (cleanThreadSummary g)) := by
  obtain ⟨response, data, rfl, hok, hjson, htext⟩ := h
  simp [threadSummaryOfOutcome, hok, hjson, hasCandidateContent_of_text htext, htext, bind,
    Except.bind, JSVal.replace, pure, Except.pure, cleanThreadSummary]

theorem threadSummaryOfOutcome_of_omitted {outcome : FetchOutcome} (h : Omitted outcome) :
    threadSummaryOfOutcome outcome = .ok none := by
  obtain ⟨response, rfl, hok | ⟨data, hjson, hguard⟩⟩ := h
  · simp [threadSummaryOfOutcome, hok]
  · by_cases hok : response.ok = true
    · simp [threadSummaryOfOutcome, hok, hjson, hguard, bind, Except.bind, pure, Except.pure]
    · simp [threadSummaryOfOutcome, hok]

theorem threadSummaryOfOutcome_tolerated {outcome : FetchOutcome}
    (h : Omitted outcome ∨ ∃ g, Succeeds outcome g) :
    threadSummaryOfOutcome outcome = .ok ((generatedString outcome).map cleanThreadSummary) := by
  rcases h with h | ⟨g, h⟩
  · rw [threadSummaryOfOutcome_of_omitted h, generatedString_of_omitted h]
    rfl
  · rw [threadSummaryOfOutcome_of_succeeds h, generatedString_of_succeeds h]
    rfl

theorem attempted_cons_of_empty (apiKey key : String) (bodies : List String)
    (rest : ThreadGroups) (h : combinedText bodies = "") :
    attempted apiKey ((key, bodies) :: rest) = attempted apiKey rest := by
  simp [attempted, List.filter_cons, h]

theorem attempted_cons_of_nonempty (apiKey key : String) (bodies : List String)
    (rest : ThreadGroups) (h : combinedText bodies ≠ "") :
    attempted apiKey ((key, bodies) :: rest)
      = (key, generateContentRequest apiKey (threadPrompt (combinedText bodies))) ::
          attempted apiKey rest := by
  simp [attempted, List.filter_cons, h]

theorem expectedSummaries_nil (fetch : Endpoint) (start : Nat) :
    expectedSummaries fetch [] start = [] := rfl

theorem expectedSummaries_cons (fetch : Endpoint) (key : String) (sent : FetchRequest)
    (calls : List (String × FetchRequest)) (start : Nat) :
    expectedSummaries fetch ((key, sent) :: calls) start
      = ((generatedString (fetch start sent)).map fun g =>
          (⟨key, cleanThreadSummary g⟩ : ThreadSummary)).toList ++
        expectedSummaries fetch calls (start + 1) := by
  unfold expectedSummaries
  rw [List.enumFrom_cons, List.filterMap_cons]
  cases generatedString (fetch start sent) <;> simp

theorem processThreads_of_tolerated (fetch : Endpoint) (apiKey : String)
    (entries : ThreadGroups) (state : LoopState)
    (h : ∀ i call, (attempted apiKey entries)[i]? = some call →
      Omitted (fetch (state.sent.length + i) call.2) ∨
        ∃ g, Succeeds (fetch (state.sent.length + i) call.2) g) :
    processThreads fetch apiKey entries state
      = (.ok (state.summaries ++
            expectedSummaries fetch (attempted apiKey entries) state.sent.length),
          state.sent ++ (attempted apiKey entries).map Prod.snd) := by
  induction entries generalizing state with
  | nil => simp [processThreads, attempted, expectedSummaries_nil]
  | cons entry rest ih =>
    obtain ⟨key, bodies⟩ := entry
    by_cases hc : combinedText bodies = ""
    · rw [attempted_cons_of_empty _ _ _ _ hc] at h ⊢
      simp only [processThreads, hc, ne_eq, not_true_eq_false, if_false]
      exact ih state h
    · rw [attempted_cons_of_nonempty _ _ _ _ hc] at h ⊢
      have h0 := h 0 (key, generateContentRequest apiKey (threadPrompt (combinedText bodies)))
        (by simp)
      have hrest : ∀ (next : LoopState), next.sent.length = state.sent.length + 1 →
          ∀ i call, (attempted apiKey rest)[i]? = some call →
            Omitted (fetch (next.sent.length + i) call.2) ∨
              ∃ g, Succeeds (fetch (next.sent.length + i) call.2) g := by
        intro next hnext i call hcall
        have := h (i + 1) call (by simpa using hcall)
        rw [hnext]
        rwa [show state.sent.length + 1 + i = state.sent.length + (i + 1) by omega]
      simp only [Nat.add_zero] at h0
      simp only [processThreads, hc, ne_eq, not_false_eq_true, if_true,
        threadSummaryOfOutcome_tolerated h0, expectedSummaries_cons]
      cases hg : generatedString (fetch state.sent.length
          (generateContentRequest apiKey (threadPrompt (combinedText bodies)))) with
      | none =>
        simp only [Option.map_none']
        rw [ih ⟨state.summaries, state.sent ++ [_]⟩ (hrest _ (by simp))]
        simp
      | some g =>
        simp only [Option.map_some']
        rw [ih ⟨state.summaries ++ [_], state.sent ++ [_]⟩ (hrest _ (by simp))]
        simp

theorem processThreads_of_rejected (fetch : Endpoint) (apiKey : String)
    (entries : ThreadGroups) (state : LoopState) (k : Nat) (call : String × FetchRequest)
    (e : String)
    (hbefore : ∀ i c, i < k → (attempted apiKey entries)[i]? = some c →
      Omitted (fetch (state.sent.length + i) c.2) ∨
        ∃ g, Succeeds (fetch (state.sent.length + i) c.2) g)
    (hcall : (attempted apiKey entries)[k]? = some call)
    (hrejected : fetch (state.sent.length + k) call.2 = .rejected e) :
    (processThreads fetch apiKey entries state).1 = .error (.text e) := by
  induction entries generalizing state k with
  | nil => simp [attempted] at hcall
  | cons entry rest ih =>
    obtain ⟨key, bodies⟩ := entry
    by_cases hc : combinedText bodies = ""
    · rw [attempted_cons_of_empty _ _ _ _ hc] at hbefore hcall
      simp only [processThreads, hc, ne_eq, not_true_eq_false, if_false]
      exact ih state k hbefore hcall hrejected
    · rw [attempted_cons_of_nonempty _ _ _ _ hc] at hbefore hcall
      cases k with
      | zero =>
        simp only [List.getElem?_cons_zero, Option.some.injEq] at hcall
        subst hcall
        simp only [Nat.add_zero] at hrejected
        simp [processThreads, hc, hrejected, threadSummaryOfOutcome]
      | succ k =>
        have h0 := hbefore 0
          (key, generateContentRequest apiKey (threadPrompt (combinedText bodies)))
          (by omega) (by simp)
        simp only [Nat.add_zero] at h0
        simp only [List.getElem?_cons_succ] at hcall
        have hrest : ∀ (next : LoopState), next.sent.length = state.sent.length + 1 →
            (∀ i c, i < k → (attempted apiKey rest)[i]? = some c →
              Omitted (fetch (next.sent.length + i) c.2) ∨
                ∃ g, Succeeds (fetch (next.sent.length + i) c.2) g) ∧
            fetch (next.sent.length + k) call.2 = .rejected e := by
          intro next hnext
          constructor
          · intro i c hi hc'
            have := hbefore (i + 1) c (by omega) (by simpa using hc')
            rw [hnext]
            rwa [show state.sent.length + 1 + i = state.sent.length + (i + 1) by omega]
          · rw [hnext]
            rwa [show state.sent.length + 1 + k = state.sent.length + (k + 1) by omega]
        simp only [processThreads, hc, ne_eq, not_false_eq_true, if_true,
          threadSummaryOfOutcome_tolerated h0]
        cases hg : generatedString (fetch state.sent.length
            (generateContentRequest apiKey (threadPrompt (combinedText bodies)))) with
        | none =>
          simp only [Option.map_none']
          obtain ⟨h₁, h₂⟩ := hrest ⟨state.summaries, state.sent ++ [_]⟩ (by simp)
          exact ih _ k h₁ hcall h₂
        | some g =>
          simp only [Option.map_some']
          obtain ⟨h₁, h₂⟩ := hrest ⟨state.summaries ++ [_], state.sent ++ [_]⟩ (by simp)
          exact ih _ k h₁ hcall h₂

theorem processThreads_general (fetch : Endpoint) (apiKey : String) (entries : ThreadGroups)
    (state : LoopState) :
    ∃ reqs keys, (processThreads fetch apiKey entries state).2 = state.sent ++ reqs ∧
      reqs <+: (attempted apiKey entries).map Prod.snd ∧
      List.Sublist keys ((attempted apiKey entries).map Prod.fst) ∧
      ∀ summaries, (processThreads fetch apiKey entries state).1 = .ok summaries →
        reqs = (attempted apiKey entries).map Prod.snd ∧
        summaries.map ThreadSummary.thread_id
          = state.summaries.map ThreadSummary.thread_id ++ keys := by
  induction entries generalizing state with
  | nil =>
    refine ⟨[], [], by simp [processThreads], by simp [attempted], by simp, ?_⟩
    intro summaries h
    simp only [processThreads] at h
    cases h
    simp [attempted]
  | cons entry rest ih =>
    obtain ⟨key, bodies⟩ := entry
    by_cases hc : combinedText bodies = ""
    · rw [attempted_cons_of_empty _ _ _ _ hc]
      simp only [processThreads, hc, ne_eq, not_true_eq_false, if_false]
      exact ih state
    · rw [attempted_cons_of_nonempty _ _ _ _ hc]
      simp only [processThreads, hc, ne_eq, not_false_eq_true, if_true]
      cases hout : threadSummaryOfOutcome (fetch state.sent.length
          (generateContentRequest apiKey (threadPrompt (combinedText bodies)))) with
      | error e =>
        refine ⟨[generateContentRequest apiKey (threadPrompt (combinedText bodies))], [], rfl,
          ?_, by simp, ?_⟩
        · simp only [List.map_cons]
          exact ⟨_, rfl⟩
        · intro summaries h
          cases h
      | ok result =>
        cases result with
        | none =>
          obtain ⟨reqs, keys, h₁, h₂, h₃, h₄⟩ := ih ⟨state.summaries, state.sent ++
            [generateContentRequest apiKey (threadPrompt (combinedText bodies))]⟩
          refine ⟨generateContentRequest apiKey (threadPrompt (combinedText bodies)) :: reqs,
            keys, ?_, ?_, ?_, ?_⟩
          · simp only [h₁]
            simp
          · simp only [List.map_cons]
            exact (List.prefix_cons_inj _).mpr h₂
          · simp only [List.map_cons]
            exact List.Sublist.cons _ h₃
          · intro summaries h
            obtain ⟨h₅, h₆⟩ := h₄ summaries h
            exact ⟨by simp [h₅], h₆⟩
        | some summary =>
          obtain ⟨reqs, keys, h₁, h₂, h₃, h₄⟩ := ih ⟨state.summaries ++ [⟨key, summary⟩],
            state.sent ++ [generateContentRequest apiKey (threadPrompt (combinedText bodies))]⟩
          refine ⟨generateContentRequest apiKey (threadPrompt (combinedText bodies)) :: reqs,
            key :: keys, ?_, ?_, ?_, ?_⟩
          · simp only [h₁]
            simp
          · simp only [List.map_cons]
            exact (List.prefix_cons_inj _).mpr h₂
          · simp only [List.map_cons]
            exact List.Sublist.cons₂ _ h₃
          · intro summaries h
            obtain ⟨h₅, h₆⟩ := h₄ summaries h
            exact ⟨by simp [h₅], by simp [h₆]⟩

theorem generatedString_eq_some_iff (outcome : FetchOutcome) (g : String) :
    generatedString outcome = some g ↔ Succeeds outcome g := by
  constructor
  · intro h
    cases outcome with
    | rejected e => simp [generatedString] at h
    | responded response =>
      simp only [generatedString] at h
      split at h
      · rename_i hok
        split at h
        · cases h
        · rename_i data hjson
          split at h
          · rename_i g' htext
            cases h
            exact ⟨response, data, rfl, hok, hjson, htext⟩
          · cases h
      · cases h
  · exact generatedString_of_succeeds

theorem mem_expectedSummaries (fetch : Endpoint) (calls : List (String × FetchRequest))
    (start : Nat) (summary : ThreadSummary) :
    summary ∈ expectedSummaries fetch calls start ↔
      ∃ i call g, calls[i]? = some call ∧ Succeeds (fetch (start + i) call.2) g ∧
        summary = ⟨call.1, cleanThreadSummary g⟩ := by
  induction calls generalizing start with
  | nil => simp [expectedSummaries_nil]
  | cons head rest ih =>
    obtain ⟨key, sent⟩ := head
    rw [expectedSummaries_cons, List.mem_append, ih]
    constructor
    · rintro (h | ⟨i, call, g, hcall, hsucc, rfl⟩)
      · cases hg : generatedString (fetch start sent) with
        | none => simp [hg] at h
        | some g =>
          simp only [hg, Option.map_some', Option.toList_some, List.mem_singleton] at h
          exact ⟨0, (key, sent), g, by simp,
            (generatedString_eq_some_iff _ _).mp (by simpa using hg), h⟩
      · refine ⟨i + 1, call, g, by simpa using hcall, ?_, rfl⟩
        rwa [show start + (i + 1) = start + 1 + i by omega]
    · rintro ⟨i, call, g, hcall, hsucc, rfl⟩
      cases i with
      | zero =>
        simp only [List.getElem?_cons_zero, Option.some.injEq] at hcall
        subst hcall
        left
        simp only [Nat.add_zero] at hsucc
        simp [generatedString_of_succeeds hsucc]
      | succ i =>
        right
        refine ⟨i, call, g, by simpa using hcall, ?_, rfl⟩
        rwa [show start + 1 + i = start + (i + 1) by omega]

theorem expectedSummaries_keys_of_succeeds (fetch : Endpoint)
    (calls : List (String × FetchRequest)) (start : Nat)
    (h : ∀ i call, calls[i]? = some call → ∃ g, Succeeds (fetch (start + i) call.2) g) :
    (expectedSummaries fetch calls start).map ThreadSummary.thread_id = calls.map Prod.fst := by
  induction calls generalizing start with
  | nil => simp [expectedSummaries_nil]
  | cons head rest ih =>
    obtain ⟨key, sent⟩ := head
    obtain ⟨g, hg⟩ := h 0 (key, sent) (by simp)
    simp only [Nat.add_zero] at hg
    rw [expectedSummaries_cons, generatedString_of_succeeds hg, List.map_append, ih]
    · simp
    · intro i call hcall
      obtain ⟨g', hg'⟩ := h (i + 1) call (by simpa using hcall)
      exact ⟨g', by rwa [show start + 1 + i = start + (i + 1) by omega]⟩

theorem expectedSummaries_of_omitted (fetch : Endpoint)
    (calls : List (String × FetchRequest)) (start : Nat)
    (h : ∀ i call, calls[i]? = some call → Omitted (fetch (start + i) call.2)) :
    expectedSummaries fetch calls start = [] := by
  induction calls generalizing start with
  | nil => simp [expectedSummaries_nil]
  | cons head rest ih =>
    obtain ⟨key, sent⟩ := head
    have h0 := h 0 (key, sent) (by simp)
    simp only [Nat.add_zero] at h0
    rw [expectedSummaries_cons, generatedString_of_omitted h0, ih]
    · simp
    · intro i call hcall
      have := h (i + 1) call (by simpa using hcall)
      rwa [show start + 1 + i = start + (i + 1) by omega]

theorem handleJsonSummarization_of_groups (fetch : Endpoint) (request : JsonRequest)
    {groups : ThreadGroups} (h : groupThreads request.jsonData = .ok groups) :
    (handleJsonSummarization fetch request).2
        = (processThreads fetch request.apiKey (objectEntries groups) ⟨[], []⟩).2 ∧
      (handleJsonSummarization fetch request).1
        = match (processThreads fetch request.apiKey (objectEntries groups) ⟨[], []⟩).1 with
          | .ok summaries => .success summaries
          | .error error => .failure error := by
  unfold handleJsonSummarization
  simp only [h]
  split <;> simp_all

theorem threadPrompt_injective {a b : String} (h : threadPrompt a = threadPrompt b) : a = b := by
  unfold threadPrompt at h
  have := congrArg String.data h
  simp only [String.data_append] at this
  exact String.ext (List.append_cancel_left this)

theorem eq_of_mem_of_nodup_keys {groups : ThreadGroups} {key : String}
    {bodies bodies' : List String} (hnodup : (groups.map Prod.fst).Nodup)
    (h : (key, bodies) ∈ groups) (h' : (key, bodies') ∈ groups) : bodies = bodies' := by
  have h₁ := lookup_eq_some_of_mem hnodup h
  have h₂ := lookup_eq_some_of_mem hnodup h'
  rw [h₁] at h₂
  exact Option.some.inj h₂

theorem mem_attempted_keys {apiKey key : String} {entries : ThreadGroups} :
    key ∈ (attempted apiKey entries).map Prod.fst
      ↔ ∃ bodies, (key, bodies) ∈ entries ∧ combinedText bodies ≠ "" := by
  simp only [attempted, List.map_map, List.mem_map, List.mem_filter, Function.comp,
    decide_eq_true_eq]
  constructor
  · rintro ⟨⟨k, bodies⟩, ⟨hmem, hne⟩, rfl⟩
    exact ⟨bodies, hmem, hne⟩
  · rintro ⟨bodies, hmem, hne⟩
    exact ⟨(key, bodies), ⟨hmem, hne⟩, rfl⟩

theorem attempted_keys_sublist (apiKey : String) (entries : ThreadGroups) :
    List.Sublist ((attempted apiKey entries).map Prod.fst) (entries.map Prod.fst) := by
  have : (attempted apiKey entries).map Prod.fst
      = (entries.filter fun entry => decide (combinedText entry.2 ≠ "")).map Prod.fst := by
    simp [attempted, List.map_map, Function.comp]
  rw [this]
  exact (List.filter_sublist _).map _

theorem processThreads_sample (fetch : Endpoint) (apiKey : String) :
    (processThreads fetch apiKey [("1", ["a", "b"]), ("2", [""])] ⟨[], []⟩).2
      = [generateContentRequest apiKey (threadPrompt "a b")] := by
  have e₁ : combinedText ["a", "b"] = "a b" := by decide
  have e₂ : combinedText [""] = "" := by decide
  have e₃ : ("a b" : String) ≠ "" := by decide
  simp only [processThreads, e₁, e₂, ne_eq, e₃, not_false_eq_true, not_true_eq_false,
    if_false, if_true, List.length_nil, List.nil_append]
  split <;> rfl

/-- The grouping step raises a `TypeError` on a record whose `thread_id` is the string
`constructor`, and the handler then responds with failure without any request. -/
theorem groupThreads_constructor_key :
    groupThreads [⟨some (.str "constructor"), some "x"⟩]
      = .error (.engine (.notAFunction "threadGroups[threadId].push")) ∧
    ∀ fetch : Endpoint,
      handleJsonSummarization fetch ⟨[⟨some (.str "constructor"), some "x"⟩], "key"⟩
        = (.failure (.engine (.notAFunction "threadGroups[threadId].push")), []) := by
  refine ⟨by decide, ?_⟩
  intro fetch
  rfl

theorem isWhiteSpace_iff (c : Char) : isWhiteSpace c = true ↔ StrippedByTrim c := by
  unfold isWhiteSpace StrippedByTrim
  generalize c.toNat = n
  simp only [decide_eq_true_eq, List.mem_cons, List.mem_singleton, List.not_mem_nil, or_false]
  omega

theorem trim_spec (s : String) :
    ∃ leading trailing : List Char,
      (∀ c ∈ leading, isWhiteSpace c = true) ∧ (∀ c ∈ trailing, isWhiteSpace c = true) ∧
      s.data = leading ++ (trim s).data ++ trailing ∧
      (∀ c, (trim s).data.head? = some c → isWhiteSpace c = false) ∧
      (∀ c, (trim s).data.getLast? = some c → isWhiteSpace c = false) := by
  have hsplit₁ := List.takeWhile_append_dropWhile isWhiteSpace s.data
  have hsplit₂ := List.takeWhile_append_dropWhile isWhiteSpace
    (s.data.dropWhile isWhiteSpace).reverse
  have hmiddle : s.data.dropWhile isWhiteSpace
      = (trim s).data ++
        ((s.data.dropWhile isWhiteSpace).reverse.takeWhile isWhiteSpace).reverse := by
    have := congrArg List.reverse hsplit₂
    rw [List.reverse_append, List.reverse_reverse] at this
    exact this.symm
  refine ⟨s.data.takeWhile isWhiteSpace,
    ((s.data.dropWhile isWhiteSpace).reverse.takeWhile isWhiteSpace).reverse, ?_, ?_, ?_, ?_, ?_⟩
  · intro c hc
    exact List.mem_takeWhile_imp hc
  · intro c hc
    exact List.mem_takeWhile_imp (List.mem_reverse.mp hc)
  · rw [List.append_assoc, ← hmiddle, hsplit₁]
  · intro c hc
    have hhead := List.head?_dropWhile_not isWhiteSpace s.data
    rw [hmiddle, List.head?_append, hc] at hhead
    simpa using hhead
  · intro c hc
    have hlast := List.head?_dropWhile_not isWhiteSpace
      (s.data.dropWhile isWhiteSpace).reverse
    have : (trim s).data.getLast?
        = ((s.data.dropWhile isWhiteSpace).reverse.dropWhile isWhiteSpace).head? := by
      simp [trim]
    rw [this] at hc
    rw [hc] at hlast
    simpa using hlast

theorem trim_eq_empty_iff (s : String) :
    trim s = "" ↔ ∀ c ∈ s.data, isWhiteSpace c = true := by
  constructor
  · intro h
    obtain ⟨leading, trailing, h₁, h₂, h₃, -, -⟩ := trim_spec s
    rw [h] at h₃
    intro c hc
    rw [h₃] at hc
    simp only [String.data, List.append_nil, List.mem_append] at hc
    rcases hc with hc | hc
    · exact h₁ c hc
    · exact h₂ c hc
  · intro h
    have : s.data.dropWhile isWhiteSpace = [] := List.dropWhile_eq_nil_iff.mpr h
    apply String.ext
    simp [trim, this]

theorem combinedText_spec (bodies : List String) :
    ∃ leading trailing : List Char,
      (∀ c ∈ leading, StrippedByTrim c) ∧ (∀ c ∈ trailing, StrippedByTrim c) ∧
      (String.intercalate " " bodies).data = leading ++ (combinedText bodies).data ++ trailing ∧
      (∀ c, (combinedText bodies).data.head? = some c → ¬ StrippedByTrim c) ∧
      (∀ c, (combinedText bodies).data.getLast? = some c → ¬ StrippedByTrim c) := by
  obtain ⟨leading, trailing, h₁, h₂, h₃, h₄, h₅⟩ := trim_spec (String.intercalate " " bodies)
  refine ⟨leading, trailing, ?_, ?_, h₃, ?_, ?_⟩
  · intro c hc
    exact (isWhiteSpace_iff c).mp (h₁ c hc)
  · intro c hc
    exact (isWhiteSpace_iff c).mp (h₂ c hc)
  · intro c hc hws
    have := h₄ c hc
    rw [(isWhiteSpace_iff c).mpr hws] at this
    cases this
  · intro c hc hws
    have := h₅ c hc
    rw [(isWhiteSpace_iff c).mpr hws] at this
    cases this

theorem combinedText_eq_empty_iff (bodies : List String) :
    combinedText bodies = "" ↔ ∀ c ∈ (String.intercalate " " bodies).data, StrippedByTrim c := by
  unfold combinedText
  rw [trim_eq_empty_iff]
  constructor
  · intro h c hc
    exact (isWhiteSpace_iff c).mp (h c hc)
  · intro h c hc
    exact (isWhiteSpace_iff c).mpr (h c hc)

theorem processThreads_single (fetch : Endpoint) (apiKey key : String) (bodies : List String)
    (h : combinedText bodies ≠ "") :
    (processThreads fetch apiKey [(key, bodies)] ⟨[], []⟩).2
      = [generateContentRequest apiKey (threadPrompt (combinedText bodies))] := by
  simp only [processThreads, ne_eq, h, not_false_eq_true, if_true, List.length_nil,
    List.nil_append]
  split <;> rfl

theorem processThreads_single_empty (fetch : Endpoint) (apiKey key : String)
    (bodies : List String) (h : combinedText bodies = "") :
    processThreads fetch apiKey [(key, bodies)] ⟨[], []⟩ = (.ok [], []) := by
  simp [processThreads, h]

theorem attempted_keys_descending (apiKey : String) :
    (attempted apiKey (objectEntries [("2", ["x"]), ("1", ["y"])])).map Prod.fst
      = ["1", "2"] := by
  have hentries : objectEntries [("2", ["x"]), ("1", ["y"])] = [("1", ["y"]), ("2", ["x"])] := by
    decide
  have e₁ : combinedText ["x"] = "x" := by decide
  have e₂ : combinedText ["y"] = "y" := by decide
  have n₁ : ("x" : String) ≠ "" := by decide
  have n₂ : ("y" : String) ≠ "" := by decide
  simp [hentries, attempted, List.filter_cons, e₁, e₂, n₁, n₂]

theorem attempted_keys_mixed (apiKey : String) :
    (attempted apiKey
      (objectEntries [("b", ["x"]), ("2", ["y"]), ("a", ["z"]), ("1", ["w"])])).map Prod.fst
      = ["1", "2", "b", "a"] := by
  have hentries : objectEntries [("b", ["x"]), ("2", ["y"]), ("a", ["z"]), ("1", ["w"])]
      = [("1", ["w"]), ("2", ["y"]), ("b", ["x"]), ("a", ["z"])] := by decide
  have e₁ : combinedText ["x"] = "x" := by decide
  have e₂ : combinedText ["y"] = "y" := by decide
  have e₃ : combinedText ["z"] = "z" := by decide
  have e₄ : combinedText ["w"] = "w" := by decide
  have n₁ : ("x" : String) ≠ "" := by decide
  have n₂ : ("y" : String) ≠ "" := by decide
  have n₃ : ("z" : String) ≠ "" := by decide
  have n₄ : ("w" : String) ≠ "" := by decide
  simp [hentries, attempted, List.filter_cons, e₁, e₂, e₃, e₄, n₁, n₂, n₃, n₄]

/-! ## Statements on the specification (C1 to C10) -/

/-- C1. The prompt `handleSummarization` sends is the instruction selected by the compression
value, then a colon and two line feeds, then the text verbatim, which is therefore a suffix
and a substring of the prompt. The values `25%`, `50%` and `75%` select the instruction
mentioning that ratio, every other value (the absent one included) the default instruction,
which has no percent sign; the four instructions are pairwise different. -/
theorem C1_prompt_is_instruction_then_text (fetch : Endpoint) (apiKey : String) (c : JSVal)
    (t : String) :
    (handleSummarization fetch ⟨t, c, apiKey⟩).2.map FetchRequest.prompt
      = [summarizationPrompt c t] ∧
    summarizationPrompt (.str "25%") t = instruction25 ++ ":\n\n" ++ t ∧
    summarizationPrompt (.str "50%") t = instruction50 ++ ":\n\n" ++ t ∧
    summarizationPrompt (.str "75%") t = instruction75 ++ ":\n\n" ++ t ∧
    summarizationPrompt .undefined t = instructionDefault ++ ":\n\n" ++ t ∧
    (c ≠ .str "25%" → c ≠ .str "50%" → c ≠ .str "75%" →
      summarizationPrompt c t = instructionDefault ++ ":\n\n" ++ t) ∧
    t.data <:+ (summarizationPrompt c t).data ∧
    t.data <:+: (summarizationPrompt c t).data ∧
    "25%".data <:+: instruction25.data ∧
    "50%".data <:+: instruction50.data ∧
    "75%".data <:+: instruction75.data ∧
    '%' ∉ instructionDefault.data ∧
    [instruction25, instruction50, instruction75, instructionDefault].Nodup := by
  have hsuffix : t.data <:+ (summarizationPrompt c t).data := by
    unfold summarizationPrompt
    split_ifs <;> simp only [String.data_append] <;> exact List.suffix_append _ _
  refine ⟨?_, ?_, ?_, ?_, ?_, ?_, hsuffix, hsuffix.isInfix, by decide, by decide, by decide,
    by decide, by decide⟩
  · unfold handleSummarization
    simp only []
    split <;> rfl
  · simp only [summarizationPrompt, JSVal.strictEqStr, String.append_assoc]
    rfl
  · simp only [summarizationPrompt, JSVal.strictEqStr, String.append_assoc]
    rfl
  · simp only [summarizationPrompt, JSVal.strictEqStr, String.append_assoc]
    rfl
  · simp only [summarizationPrompt, JSVal.strictEqStr, String.append_assoc]
    rfl
  · intro h25 h50 h75
    have e25 : c.strictEqStr "25%" = false := by
      rw [Bool.eq_false_iff, Ne, strictEqStr_iff]; exact h25
    have e50 : c.strictEqStr "50%" = false := by
      rw [Bool.eq_false_iff, Ne, strictEqStr_iff]; exact h50
    have e75 : c.strictEqStr "75%" = false := by
      rw [Bool.eq_false_iff, Ne, strictEqStr_iff]; exact h75
    simp only [summarizationPrompt, e25, e50, e75, String.append_assoc]
    rfl

/-- Witness of C1: a number as compression value selects the default instruction. -/
theorem C1_prompt_is_instruction_then_text_witness :
    summarizationPrompt (.num 3) "abc" = instructionDefault ++ ":\n\n" ++ "abc" :=
  (C1_prompt_is_instruction_then_text (fun _ _ => .rejected "") "key" (.num 3) "abc").2.2.2.2.2.1
    (by simp) (by simp) (by simp)

/-- C2. When the response is successful and its parsed body holds the string `g` at
`candidates[0].content.parts[0].text`, `handleSummarization` responds with success and the
summary is `g` with every `*` and every `#` deleted, the other characters unchanged and in
order; the summary has no `*` and no `#`, and `**Hello** #world` gives `Hello world`. -/
theorem C2_summary_is_text_without_markers (fetch : Endpoint) (request : SummarizeRequest)
    (response : HttpResponse) (data : JSVal) (g : String)
    (hfetch : fetch 0 (generateContentRequest request.apiKey
      (summarizationPrompt request.compression request.text)) = .responded response)
    (hok : response.ok = true) (hjson : response.json = .ok data)
    (htext : generatedText data = .ok (.str g)) :
    (handleSummarization fetch request).1
      = .success ⟨g.data.filter fun c => decide (c ≠ '*' ∧ c ≠ '#')⟩ ∧
    (∀ summary, (handleSummarization fetch request).1 = .success summary →
      '*' ∉ summary.data ∧ '#' ∉ summary.data) ∧
    (g = "**Hello** #world" → (handleSummarization fetch request).1 = .success "Hello world") := by
  have hmain : (handleSummarization fetch request).1
      = .success ⟨g.data.filter fun c => decide (c ≠ '*' ∧ c ≠ '#')⟩ := by
    simp only [handleSummarization, hfetch, summaryOfOutcome, hok, hjson, if_true,
      summaryOfBody_of_text htext, stringReplace_empty, List.filter_filter]
    congr 2
    apply List.filter_congr
    intro c _
    simp [and_comm]
  refine ⟨hmain, ?_, ?_⟩
  · intro summary hs
    rw [hmain] at hs
    injection hs with hs
    subst hs
    simp [List.mem_filter]
  · rintro rfl
    rw [hmain]
    decide

/-- Witness of C2: the endpoint answers with the body of the example. -/
theorem C2_summary_is_text_without_markers_witness :
    (handleSummarization (respondWith (bodyWithText "**Hello** #world"))
      ⟨"some text", .str "50%", "key"⟩).1 = .success "Hello world" :=
  (C2_summary_is_text_without_markers (respondWith (bodyWithText "**Hello** #world"))
    ⟨"some text", .str "50%", "key"⟩ ⟨200, "OK", .ok (bodyWithText "**Hello** #world")⟩
    (bodyWithText "**Hello** #world") "**Hello** #world" rfl (by decide) rfl rfl).2.2 rfl

/-- C3, as stated, fails: the records with `thread_id` 1 and `"1"` have different thread
identifiers and land in one group, whose list holds both bodies, so no grouping gives the
first record a group holding exactly the bodies of the records with its `thread_id`. -/
theorem C3_counterexample_keys_are_strings :
    groupThreads mixedKeyRecords = .ok [("1", ["a", "b"])] ∧
    ¬ ∃ groups, groupThreads mixedKeyRecords = .ok groups ∧
      ∀ record ∈ mixedKeyRecords, ∀ threadId, record.thread_id = some threadId →
        ∃ bodies, (threadId.toPropertyKey, bodies) ∈ groups ∧
          bodies = (mixedKeyRecords.filter fun other =>
            decide (other.thread_id = some threadId)).map ThreadRecord.bodyOrEmpty := by
  have hgroups : groupThreads mixedKeyRecords = .ok [("1", ["a", "b"])] := by decide
  refine ⟨hgroups, ?_⟩
  rintro ⟨groups, hg, h⟩
  rw [hgroups] at hg
  cases hg
  obtain ⟨bodies, hmem, hbodies⟩ :=
    h ⟨some idOne, some "a"⟩ (by simp [mixedKeyRecords]) idOne rfl
  have hvalue : bodies = ["a"] := by
    rw [hbodies]
    decide
  subst hvalue
  revert hmem
  decide

/-- C3 (amended). Numeric thread identifiers being integers of magnitude below 2^53: when no
`thread_id` has the property key of a property inherited from `Object.prototype`, the
grouping step completes, its groups have distinct keys, and the group of a property key
holds exactly the bodies (the empty string for an absent body) of the records whose
`thread_id` has that key, in the order of the records: each record with a defined
`thread_id` adds one body to the group of its key, a record without adds none. The property
key of a number is its decimal numeral, that of a string the string itself, that of null
and of a boolean its name; the sample records give group `1` with bodies `a`, `b` and group
`2` with the empty body. -/
theorem C3_records_grouped_by_property_key (records : List ThreadRecord)
    (hkeys : InheritsNoKey records) :
    ∃ groups, groupThreads records = .ok groups ∧
      (groups.map Prod.fst).Nodup ∧
      (∀ record ∈ records, ∀ key, record.key? = some key →
        groups.lookup key = some (bodiesOf records key)) ∧
      (∀ key bodies, (key, bodies) ∈ groups →
        (∃ record ∈ records, record.key? = some key) ∧ bodies = bodiesOf records key) ∧
      (groups.map fun entry => entry.2.length).sum
        = (records.filter fun record => record.thread_id.isSome).length ∧
      (∀ record : ThreadRecord, record.bodyOrEmpty = record.body.getD "") ∧
      (∀ record : ThreadRecord, record.key? = none ↔ record.thread_id = none) ∧
      (∀ (body : Option String) (n : SafeInteger),
        (ThreadRecord.mk (some (.num n)) body).key? = some (toString n.value)) ∧
      (∀ (body : Option String) (text : String),
        (ThreadRecord.mk (some (.str text)) body).key? = some text) ∧
      ThreadId.toPropertyKey idOne = "1" ∧
      ThreadId.toPropertyKey idMinusTwelve = "-12" ∧
      ThreadId.toPropertyKey .null = "null" ∧
      ThreadId.toPropertyKey (.bool true) = "true" ∧
      ThreadId.toPropertyKey (.bool false) = "false" ∧
      (records = sampleRecords → groups = [("1", ["a", "b"]), ("2", [""])]) := by
  obtain ⟨groups, hgroups⟩ := groupThreads_ok hkeys
  have inv := groupThreads_inv hgroups
  refine ⟨groups, hgroups, inv.nodup, ?_, ?_, inv.count, ?_, ?_, fun _ _ => rfl,
    fun _ _ => rfl, by decide, by decide, rfl, rfl, rfl, ?_⟩
  · intro record hrecord key hkey
    have hmem : key ∈ groups.map Prod.fst := (inv.mem_iff key).mpr ⟨record, hrecord, hkey⟩
    obtain ⟨entry, hentry, rfl⟩ := List.mem_map.mp hmem
    have := inv.bodies entry.1 entry.2 hentry
    rw [← this]
    exact lookup_eq_some_of_mem inv.nodup hentry
  · intro key bodies hmem
    exact ⟨(inv.mem_iff key).mp (List.mem_map.mpr ⟨_, hmem, rfl⟩), inv.bodies key bodies hmem⟩
  · intro record
    unfold ThreadRecord.bodyOrEmpty
    cases record.body with
    | none => rfl
    | some body =>
      by_cases h : body = ""
      · simp [h]
      · simp [h]
  · intro record
    unfold ThreadRecord.key?
    cases record.thread_id <;> simp
  · intro hsample
    rw [hsample] at hgroups
    have : groupThreads sampleRecords = .ok [("1", ["a", "b"]), ("2", [""])] := by decide
    rw [this] at hgroups
    cases hgroups
    rfl

/-- Witness of C3 (amended): the sample records give the groups `1` and `2`. -/
theorem C3_records_grouped_by_property_key_witness :
    groupThreads sampleRecords = .ok [("1", ["a", "b"]), ("2", [""])] :=
  match C3_records_grouped_by_property_key sampleRecords (by decide) with
  | ⟨_, hgroups, _, _, _, _, _, _, _, _, _, _, _, _, _, hsample⟩ => hsample rfl ▸ hgroups

/-- C4. The combined text of a group is its bodies joined with one space, with the leading
and the trailing white space removed and nothing else changed; it is empty exactly when the
joined bodies hold white space only. For the groups the grouping step builds, the requests
the handler sends are, in the order of the entries, the prompts of the groups whose combined
text is not empty (all of them when it responds with success, a prefix otherwise), each
prompt ending with the combined text, and the entries of `summaries` belong to such groups; a
group whose joined bodies hold white space only gets no request and no entry. For the sample
records the groups are `1` with combined text `a b` and `2` with combined text empty, and only
group `1` gets a request; a group of blank bodies is skipped; the bodies `  a ` and `b`
followed by a line feed give the combined text `a  b`. -/
theorem C4_combined_text_and_skipped_groups (fetch : Endpoint) (request : JsonRequest)
    (groups : ThreadGroups) (hgroups : groupThreads request.jsonData = .ok groups) :
    (∀ bodies : List String, ∃ leading trailing : List Char,
      (∀ c ∈ leading, StrippedByTrim c) ∧ (∀ c ∈ trailing, StrippedByTrim c) ∧
      (String.intercalate " " bodies).data
        = leading ++ (combinedText bodies).data ++ trailing ∧
      (∀ c, (combinedText bodies).data.head? = some c → ¬ StrippedByTrim c) ∧
      (∀ c, (combinedText bodies).data.getLast? = some c → ¬ StrippedByTrim c)) ∧
    (∀ bodies : List String, combinedText bodies = "" ↔
      ∀ c ∈ (String.intercalate " " bodies).data, StrippedByTrim c) ∧
    (∀ text : String, text.data <:+ (threadPrompt text).data) ∧
    threadPrompt "a b" = "Summarize this email thread in 60 words or less. Focus on key decisions, actions, and important details. Remove formatting characters and line breaks:\n\na b" ∧
    (handleJsonSummarization fetch request).2.map FetchRequest.prompt <+:
      ((objectEntries groups).filter fun entry => decide (combinedText entry.2 ≠ "")).map
        (fun entry => threadPrompt (combinedText entry.2)) ∧
    (∀ summaries, (handleJsonSummarization fetch request).1 = .success summaries →
      (handleJsonSummarization fetch request).2.map FetchRequest.prompt =
        ((objectEntries groups).filter fun entry => decide (combinedText entry.2 ≠ "")).map
          (fun entry => threadPrompt (combinedText entry.2)) ∧
      List.Sublist (summaries.map ThreadSummary.thread_id)
        (((objectEntries groups).filter fun entry =>
          decide (combinedText entry.2 ≠ "")).map Prod.fst)) ∧
    (∀ entry ∈ groups,
      (∀ c ∈ (String.intercalate " " entry.2).data, StrippedByTrim c) →
      threadPrompt (combinedText entry.2) ∉
        (handleJsonSummarization fetch request).2.map FetchRequest.prompt ∧
      ∀ summaries, (handleJsonSummarization fetch request).1 = .success summaries →
        entry.1 ∉ summaries.map ThreadSummary.thread_id) ∧
    (request.jsonData = sampleRecords →
      groups = [("1", ["a", "b"]), ("2", [""])] ∧
      combinedText ["a", "b"] = "a b" ∧
      combinedText [""] = "" ∧
      (handleJsonSummarization fetch request).2
        = [generateContentRequest request.apiKey (threadPrompt "a b")] ∧
      ∀ summaries, (handleJsonSummarization fetch request).1 = .success summaries →
        ∀ summary ∈ summaries, summary.thread_id = "1") ∧
    (request.jsonData = blankRecords →
      groups = [("u", [" ", "\t\n"])] ∧
      combinedText [" ", "\t\n"] = "" ∧
      handleJsonSummarization fetch request = (.success [], [])) ∧
    (request.jsonData = paddedRecords →
      groups = [("7", ["  a ", "b\n"])] ∧
      combinedText ["  a ", "b\n"] = "a  b" ∧
      (handleJsonSummarization fetch request).2
        = [generateContentRequest request.apiKey (threadPrompt "a  b")]) := by
  obtain ⟨hsent, hresponse⟩ := handleJsonSummarization_of_groups fetch request hgroups
  obtain ⟨reqs, keys, h₁, h₂, h₃, h₄⟩ :=
    processThreads_general fetch request.apiKey (objectEntries groups) ⟨[], []⟩
  simp only [List.nil_append, List.map_nil] at h₁ h₄
  have hprompts : ((attempted request.apiKey (objectEntries groups)).map Prod.snd).map
      FetchRequest.prompt = ((objectEntries groups).filter fun entry =>
        decide (combinedText entry.2 ≠ "")).map
          (fun entry => threadPrompt (combinedText entry.2)) := by
    simp [attempted, List.map_map, Function.comp, generateContentRequest]
  have hkeys : (attempted request.apiKey (objectEntries groups)).map Prod.fst
      = ((objectEntries groups).filter fun entry =>
        decide (combinedText entry.2 ≠ "")).map Prod.fst := by
    simp [attempted, List.map_map, Function.comp]
  have hok : ∀ summaries, (handleJsonSummarization fetch request).1 = .success summaries →
      (processThreads fetch request.apiKey (objectEntries groups) ⟨[], []⟩).1
        = .ok summaries := by
    intro summaries h
    rw [hresponse] at h
    split at h
    · rename_i found hfound
      cases h
      exact hfound
    · cases h
  have hstart : (handleJsonSummarization fetch request).2.map FetchRequest.prompt <+:
      ((objectEntries groups).filter fun entry => decide (combinedText entry.2 ≠ "")).map
        (fun entry => threadPrompt (combinedText entry.2)) := by
    rw [hsent, h₁, ← hprompts]
    exact h₂.map _
  have hsub : ∀ summaries, (handleJsonSummarization fetch request).1 = .success summaries →
      List.Sublist (summaries.map ThreadSummary.thread_id)
        ((attempted request.apiKey (objectEntries groups)).map Prod.fst) := by
    intro summaries h
    rw [(h₄ summaries (hok summaries h)).2]
    exact h₃
  have hpair : handleJsonSummarization fetch request
      = ((handleJsonSummarization fetch request).1, (handleJsonSummarization fetch request).2) :=
    rfl
  refine ⟨combinedText_spec, combinedText_eq_empty_iff, ?_, by decide, hstart, ?_, ?_, ?_, ?_,
    ?_⟩
  · intro text
    unfold threadPrompt
    rw [String.data_append]
    exact List.suffix_append _ _
  · intro summaries h
    refine ⟨?_, hkeys ▸ hsub summaries h⟩
    rw [hsent, h₁, (h₄ summaries (hok summaries h)).1, hprompts]
  · intro entry hentry hblank
    have hempty : combinedText entry.2 = "" := (combinedText_eq_empty_iff entry.2).mpr hblank
    constructor
    · intro hmem
      have := hstart.subset hmem
      obtain ⟨other, hother, heq⟩ := List.mem_map.mp this
      have hne := (List.mem_filter.mp hother).2
      rw [threadPrompt_injective heq, hempty] at hne
      simp at hne
    · intro summaries h hmem
      have hmem' := (hsub summaries h).subset hmem
      obtain ⟨bodies, hbodies, hne⟩ := mem_attempted_keys.mp hmem'
      have inv := groupThreads_inv hgroups
      have hb := (objectEntries_perm groups).mem_iff.mp hbodies
      have := eq_of_mem_of_nodup_keys inv.nodup hb (show (entry.1, entry.2) ∈ groups from hentry)
      rw [this] at hne
      exact hne hempty
  · intro hsample
    have hvalue : groups = [("1", ["a", "b"]), ("2", [""])] := by
      rw [hsample] at hgroups
      have : groupThreads sampleRecords = .ok [("1", ["a", "b"]), ("2", [""])] := by decide
      rw [this] at hgroups
      cases hgroups
      rfl
    subst hvalue
    have hentries : objectEntries [("1", ["a", "b"]), ("2", [""])]
        = [("1", ["a", "b"]), ("2", [""])] := by decide
    have hattempted : attempted request.apiKey [("1", ["a", "b"]), ("2", [""])]
        = [("1", generateContentRequest request.apiKey (threadPrompt "a b"))] := by
      have e₁ : combinedText ["a", "b"] = "a b" := by decide
      have e₂ : combinedText [""] = "" := by decide
      simp [attempted, List.filter_cons, e₁, e₂]
    refine ⟨rfl, by decide, by decide, ?_, ?_⟩
    · rw [hsent, hentries]
      exact processThreads_sample fetch request.apiKey
    · intro summaries h summary hsummary
      have := (hsub summaries h).subset (List.mem_map_of_mem ThreadSummary.thread_id hsummary)
      rw [hentries, hattempted] at this
      simpa using this
  · intro hblank
    have hvalue : groups = [("u", [" ", "\t\n"])] := by
      rw [hblank] at hgroups
      have : groupThreads blankRecords = .ok [("u", [" ", "\t\n"])] := by decide
      rw [this] at hgroups
      cases hgroups
      rfl
    subst hvalue
    have hentries : objectEntries [("u", [" ", "\t\n"])] = [("u", [" ", "\t\n"])] := by decide
    have hempty : combinedText [" ", "\t\n"] = "" := by decide
    refine ⟨rfl, hempty, ?_⟩
    rw [hpair, hsent, hresponse, hentries,
      processThreads_single_empty fetch request.apiKey "u" _ hempty]
  · intro hpadded
    have hvalue : groups = [("7", ["  a ", "b\n"])] := by
      rw [hpadded] at hgroups
      have : groupThreads paddedRecords = .ok [("7", ["  a ", "b\n"])] := by decide
      rw [this] at hgroups
      cases hgroups
      rfl
    subst hvalue
    have hentries : objectEntries [("7", ["  a ", "b\n"])] = [("7", ["  a ", "b\n"])] := by
      decide
    have htext : combinedText ["  a ", "b\n"] = "a  b" := by decide
    refine ⟨rfl, htext, ?_⟩
    rw [hsent, hentries, processThreads_single fetch request.apiKey "7" _ (by rw [htext]; decide),
      htext]

/-- Witness of C4: the records with blank bodies and an endpoint that always succeeds; the
group gets no request and no entry. -/
theorem C4_combined_text_and_skipped_groups_witness :
    handleJsonSummarization (respondWith (bodyWithText "ok")) ⟨blankRecords, "key"⟩
      = (.success [], []) :=
  ((C4_combined_text_and_skipped_groups (respondWith (bodyWithText "ok"))
    ⟨blankRecords, "key"⟩ [("u", [" ", "\t\n"])] (by decide)).2.2.2.2.2.2.2.2.1 rfl).2.2

/-- C5, as stated, fails: when the call of a group fails in transport, the handler responds
with failure, the reason being the message of the transport error. -/
theorem C5_counterexample_transport_failure :
    (handleJsonSummarization (rejectWith "Failed to fetch")
      ⟨[⟨some idOne, some "a"⟩], "key"⟩).1 = .failure (.text "Failed to fetch") ∧
    ∀ summaries, (handleJsonSummarization (rejectWith "Failed to fetch")
      ⟨[⟨some idOne, some "a"⟩], "key"⟩).1 ≠ .success summaries := by
  have h : (handleJsonSummarization (rejectWith "Failed to fetch")
      ⟨[⟨some idOne, some "a"⟩], "key"⟩).1 = .failure (.text "Failed to fetch") := by
    decide
  refine ⟨h, ?_⟩
  intro summaries hsummaries
  rw [h] at hsummaries
  cases hsummaries

/-- C5 (amended). Let the grouping step complete. If the call of every group with non-empty
combined text either gets a non-successful status, or a body lacking `candidates`,
`candidates[0]` or `content`, or succeeds, then `handleJsonSummarization` responds with
success, and `summaries` has, in the order of the entries, exactly one entry for each group
whose call succeeded and none for the others; it is empty when no call succeeds. If the
calls before the `k`-th are of these kinds and the `k`-th fails in transport with message
`e`, the handler responds with failure and reason `e`. -/
theorem C5_omitted_groups_do_not_fail (fetch : Endpoint) (request : JsonRequest)
    (groups : ThreadGroups) (hgroups : groupThreads request.jsonData = .ok groups) :
    ((∀ i call, (attempted request.apiKey (objectEntries groups))[i]? = some call →
        Omitted (fetch i call.2) ∨ ∃ g, Succeeds (fetch i call.2) g) →
      ∃ summaries, (handleJsonSummarization fetch request).1 = .success summaries ∧
        summaries
          = expectedSummaries fetch (attempted request.apiKey (objectEntries groups)) 0 ∧
        (∀ summary, summary ∈ summaries ↔
          ∃ i call g, (attempted request.apiKey (objectEntries groups))[i]? = some call ∧
            Succeeds (fetch i call.2) g ∧ summary = ⟨call.1, cleanThreadSummary g⟩) ∧
        ((∀ i call, (attempted request.apiKey (objectEntries groups))[i]? = some call →
          Omitted (fetch i call.2)) → summaries = [])) ∧
    (∀ k call e,
      (∀ i c, i < k → (attempted request.apiKey (objectEntries groups))[i]? = some c →
        Omitted (fetch i c.2) ∨ ∃ g, Succeeds (fetch i c.2) g) →
      (attempted request.apiKey (objectEntries groups))[k]? = some call →
      fetch k call.2 = .rejected e →
      (handleJsonSummarization fetch request).1 = .failure (.text e)) := by
  obtain ⟨-, hresponse⟩ := handleJsonSummarization_of_groups fetch request hgroups
  constructor
  · intro htolerated
    have hloop := processThreads_of_tolerated fetch request.apiKey (objectEntries groups)
      ⟨[], []⟩ (by simpa using htolerated)
    refine ⟨_, ?_, rfl, ?_, ?_⟩
    · rw [hresponse, hloop]
      simp
    · intro summary
      rw [mem_expectedSummaries]
      simp only [Nat.zero_add]
    · intro homitted
      exact expectedSummaries_of_omitted fetch _ 0 (by simpa using homitted)
  · intro k call e hbefore hcall hrejected
    have hloop := processThreads_of_rejected fetch request.apiKey (objectEntries groups)
      ⟨[], []⟩ k call e (by simpa using hbefore) hcall (by simpa using hrejected)
    rw [hresponse, hloop]

/-- Witness of C5 (amended): the sample records and an endpoint that answers 500. -/
theorem C5_omitted_groups_do_not_fail_witness :
    (handleJsonSummarization (respondStatus 500 "Internal Server Error")
      ⟨sampleRecords, "key"⟩).1 = .success [] :=
  match (C5_omitted_groups_do_not_fail (respondStatus 500 "Internal Server Error")
      ⟨sampleRecords, "key"⟩ [("1", ["a", "b"]), ("2", [""])] (by decide)).1
      (fun _ _ _ => Or.inl ⟨_, rfl, Or.inl (by decide)⟩) with
  | ⟨_, hsuccess, _, _, hempty⟩ =>
    hsuccess.trans (congrArg JsonResponse.success
      (hempty fun _ _ _ => ⟨_, rfl, Or.inl (by decide)⟩))

/-- C6, evaluated where the code departs from it: a successful response whose body has
`candidates[0].content` but no `parts`, an empty `parts` or no `text` makes
`handleSummarization` respond with the message of an engine `TypeError`, not with
`No summary generated`; a body without `candidates` does give `No summary generated`. -/
theorem C6_incomplete_path_reports_type_error :
    (handleSummarization (respondWith bodyWithoutParts) ⟨"some text", .str "50%", "key"⟩).1
      = .failure (.engine (.readOfNullish "0")) ∧
    (handleSummarization (respondWith bodyWithEmptyParts) ⟨"some text", .str "50%", "key"⟩).1
      = .failure (.engine (.readOfNullish "text")) ∧
    (handleSummarization (respondWith bodyWithoutText) ⟨"some text", .str "50%", "key"⟩).1
      = .failure (.engine (.readOfNullish "replace")) ∧
    (handleSummarization (respondWith (.obj [])) ⟨"some text", .str "50%", "key"⟩).1
      = .failure (.text "No summary generated") ∧
    (handleSummarization (respondWith bodyWithoutParts) ⟨"some text", .str "50%", "key"⟩).1
      ≠ .failure (.text "No summary generated") := by
  decide

/-- C7, evaluated where the code departs from it: an empty `.txt` file reaches
`handleSummarization` with the empty text, which builds the prompt of the instruction alone
and sends it, whatever the endpoint does; the click listeners of the popup reject an empty
text without sending anything. -/
theorem C7_empty_text_is_sent :
    extractTextFromFile (some "key") "notes.txt" "" "50%"
      = .sendMessage ⟨"summarize", "", "50%", "key"⟩ ∧
    onMessage "summarize" = .summarization ∧
    (∀ fetch : Endpoint,
      (handleSummarization fetch (SummarizeMessage.toRequest ⟨"summarize", "", "50%", "key"⟩)).2
        = [generateContentRequest "key" (instruction50 ++ ":\n\n")]) ∧
    summarizeTextClick (some "key") "" "50%"
      = .showMessage "Please enter some text to summarize" "error" ∧
    summarizeSelectedClick (some "key") "" "50%"
      = .showMessage "No text to summarize. Please get selected text first." "error" := by
  refine ⟨by decide, by decide, ?_, by decide, by decide⟩
  intro fetch
  unfold handleSummarization
  simp only [SummarizeMessage.toRequest]
  split <;> rfl

/-- C8. When the status of the response is not successful, `handleSummarization` responds
with failure and a reason containing the status code and the status text; when the transport
fails with message `e` the reason is `e`; for status 500 the reason contains `500`. -/
theorem C8_failure_reason (fetch : Endpoint) (request : SummarizeRequest) :
    (∀ response : HttpResponse,
      fetch 0 (generateContentRequest request.apiKey
        (summarizationPrompt request.compression request.text)) = .responded response →
      response.ok = false →
      ∃ reason : String,
        (handleSummarization fetch request).1 = .failure (.text reason) ∧
        reason = "API request failed: " ++ toString response.status ++ " " ++
          response.statusText ∧
        (toString response.status).data <:+: reason.data ∧
        response.statusText.data <:+: reason.data ∧
        (response.status = 500 → "500".data <:+: reason.data)) ∧
    (∀ e : String,
      fetch 0 (generateContentRequest request.apiKey
        (summarizationPrompt request.compression request.text)) = .rejected e →
      (handleSummarization fetch request).1 = .failure (.text e)) := by
  constructor
  · intro response hfetch hok
    refine ⟨_, ?_, rfl, ?_, ?_, ?_⟩
    · simp [handleSummarization, hfetch, summaryOfOutcome, hok]
    · refine ⟨"API request failed: ".data, (" " ++ response.statusText).data, ?_⟩
      simp [String.data_append]
    · simp only [String.data_append]
      exact (List.suffix_append _ _).isInfix
    · intro h500
      refine ⟨"API request failed: ".data, (" " ++ response.statusText).data, ?_⟩
      have h : toString (500 : Nat) = "500" := by decide
      rw [h500, h]
      simp [String.data_append]
  · intro e hfetch
    simp [handleSummarization, hfetch, summaryOfOutcome]

/-- Witness of C8: status 500 with status text `Internal Server Error`. -/
theorem C8_failure_reason_witness :
    ∃ reason : String,
      (handleSummarization (respondStatus 500 "Internal Server Error")
        ⟨"some text", .str "50%", "key"⟩).1 = .failure (.text reason) ∧
      reason = "API request failed: " ++ toString (500 : Nat) ++ " " ++ "Internal Server Error" ∧
      (toString (500 : Nat)).data <:+: reason.data ∧
      "Internal Server Error".data <:+: reason.data ∧
      ((500 : Nat) = 500 → "500".data <:+: reason.data) :=
  (C8_failure_reason (respondStatus 500 "Internal Server Error")
    ⟨"some text", .str "50%", "key"⟩).1 ⟨500, "Internal Server Error", .ok (.obj [])⟩ rfl
    (by decide)

/-- C9, as stated, fails: for records with `thread_id` 2 then 1, every call succeeding, the
summary of thread 1 comes before the summary of thread 2, although 2 occurs first. -/
theorem C9_counterexample_index_keys_ascend :
    (handleJsonSummarization (respondWith (bodyWithText "ok")) ⟨descendingRecords, "key"⟩).1
      = .success [⟨"1", "ok"⟩, ⟨"2", "ok"⟩] ∧
    firstOccurrence descendingRecords "2" < firstOccurrence descendingRecords "1" := by
  decide

/-- C9 (amended). Numeric thread identifiers being integers of magnitude below 2^53: let the
grouping step complete and the call of every group with non-empty combined text succeed.
Then `handleJsonSummarization` responds with success, `summaries` has exactly one entry for
each property key whose group has a non-empty combined text, and the entries are in the order
of `Object.entries`: the keys that are array indices first, in ascending numeric order, then
the other keys in the order of their first occurrence in the input. When no key is an array
index the entries are in the order of first occurrence. An array index is the canonical
numeral of an integer from 0 to 2^32 - 2; the thread identifiers 2 then 1 give the summaries
of 1 then 2, and `b`, 2, `a`, 1 give those of 1, 2, `b`, `a`. -/
theorem C9_entries_in_property_order (fetch : Endpoint) (request : JsonRequest)
    (groups : ThreadGroups) (hgroups : groupThreads request.jsonData = .ok groups)
    (hsucc : ∀ i call, (attempted request.apiKey (objectEntries groups))[i]? = some call →
      ∃ g, Succeeds (fetch i call.2) g) :
    ∃ summaries, (handleJsonSummarization fetch request).1 = .success summaries ∧
      (summaries.map ThreadSummary.thread_id).Pairwise (precedes request.jsonData) ∧
      (summaries.map ThreadSummary.thread_id).Nodup ∧
      (∀ key, key ∈ summaries.map ThreadSummary.thread_id ↔
        (∃ record ∈ request.jsonData, record.key? = some key) ∧
          combinedText (bodiesOf request.jsonData key) ≠ "") ∧
      ((∀ record ∈ request.jsonData, ∀ key ∈ record.key?, arrayIndex? key = none) →
        (summaries.map ThreadSummary.thread_id).Pairwise fun a b =>
          firstOccurrence request.jsonData a < firstOccurrence request.jsonData b) ∧
      arrayIndex? "0" = some 0 ∧ arrayIndex? "1" = some 1 ∧ arrayIndex? "2" = some 2 ∧
      arrayIndex? "4294967294" = some 4294967294 ∧ arrayIndex? "4294967295" = none ∧
      arrayIndex? "01" = none ∧ arrayIndex? "-1" = none ∧ arrayIndex? "1.5" = none ∧
      arrayIndex? "" = none ∧ arrayIndex? "u" = none ∧
      firstOccurrence descendingRecords "2" = 0 ∧ firstOccurrence descendingRecords "1" = 1 ∧
      (request.jsonData = descendingRecords →
        summaries.map ThreadSummary.thread_id = ["1", "2"]) ∧
      (request.jsonData = interleavedRecords →
        summaries.map ThreadSummary.thread_id = ["1", "2", "b", "a"]) := by
  obtain ⟨-, hresponse⟩ := handleJsonSummarization_of_groups fetch request hgroups
  have inv := groupThreads_inv hgroups
  have hloop := processThreads_of_tolerated fetch request.apiKey (objectEntries groups)
    ⟨[], []⟩ (by
      intro i call hcall
      simp only [List.length_nil, Nat.zero_add]
      exact Or.inr (hsucc i call hcall))
  have hkeys := expectedSummaries_keys_of_succeeds fetch
    (attempted request.apiKey (objectEntries groups)) 0 (by simpa using hsucc)
  have hpairwise : ((attempted request.apiKey (objectEntries groups)).map Prod.fst).Pairwise
      (precedes request.jsonData) :=
    ((List.pairwise_map (f := Prod.fst) (R := precedes request.jsonData)).mpr
      (objectEntries_pairwise inv)).sublist (attempted_keys_sublist _ _)
  have hmem : ∀ key, key ∈ (attempted request.apiKey (objectEntries groups)).map Prod.fst ↔
      (∃ record ∈ request.jsonData, record.key? = some key) ∧
        combinedText (bodiesOf request.jsonData key) ≠ "" := by
    intro key
    rw [mem_attempted_keys]
    constructor
    · rintro ⟨bodies, hbodies, hne⟩
      have hb := (objectEntries_perm groups).mem_iff.mp hbodies
      refine ⟨(inv.mem_iff key).mp (List.mem_map.mpr ⟨_, hb, rfl⟩), ?_⟩
      rw [← inv.bodies key bodies hb]
      exact hne
    · rintro ⟨hrecord, hne⟩
      obtain ⟨entry, hentry, rfl⟩ := List.mem_map.mp ((inv.mem_iff key).mpr hrecord)
      refine ⟨entry.2, (objectEntries_perm groups).mem_iff.mpr hentry, ?_⟩
      rw [inv.bodies entry.1 entry.2 hentry]
      exact hne
  simp only [List.nil_append, List.length_nil] at hloop
  refine ⟨expectedSummaries fetch (attempted request.apiKey (objectEntries groups)) 0,
    ?_, ?_, ?_, ?_, ?_, by decide, by decide, by decide, by decide, by decide, by decide,
    by decide, by decide, by decide, by decide, by decide, by decide, ?_, ?_⟩
  · rw [hresponse, hloop]
  · rw [hkeys]
    exact hpairwise
  · rw [hkeys]
    exact (((objectEntries_perm groups).map Prod.fst).nodup_iff.mpr inv.nodup).sublist
      (attempted_keys_sublist _ _)
  · intro key
    rw [hkeys]
    exact hmem key
  · intro hnone
    rw [hkeys]
    refine List.Pairwise.imp_of_mem ?_ hpairwise
    intro a b ha hb hab
    obtain ⟨⟨ra, hra, hka⟩, -⟩ := (hmem a).mp ha
    obtain ⟨⟨rb, hrb, hkb⟩, -⟩ := (hmem b).mp hb
    have ha' : arrayIndex? a = none := hnone ra hra a (by simp [hka])
    have hb' : arrayIndex? b = none := hnone rb hrb b (by simp [hkb])
    simpa only [precedes, ha', hb'] using hab
  · intro hinput
    rw [hkeys]
    rw [hinput] at hgroups
    have : groupThreads descendingRecords = .ok [("2", ["x"]), ("1", ["y"])] := by decide
    rw [this] at hgroups
    cases hgroups
    exact attempted_keys_descending request.apiKey
  · intro hinput
    rw [hkeys]
    rw [hinput] at hgroups
    have : groupThreads interleavedRecords
        = .ok [("b", ["x"]), ("2", ["y"]), ("a", ["z"]), ("1", ["w"])] := by decide
    rw [this] at hgroups
    cases hgroups
    exact attempted_keys_mixed request.apiKey

/-- Witness of C9 (amended): the records with `thread_id` 2 then 1 give the summaries of
thread 1 then thread 2. -/
theorem C9_entries_in_property_order_witness :
    ∃ summaries, (handleJsonSummarization (respondWith (bodyWithText "ok"))
        ⟨descendingRecords, "key"⟩).1 = .success summaries ∧
      summaries.map ThreadSummary.thread_id = ["1", "2"] :=
  match C9_entries_in_property_order (respondWith (bodyWithText "ok"))
      ⟨descendingRecords, "key"⟩ [("2", ["x"]), ("1", ["y"])] (by decide)
      (fun _ _ _ => ⟨"ok", _, _, rfl, by decide, rfl, rfl⟩) with
  | ⟨summaries, hsuccess, _, _, _, _, _, _, _, _, _, _, _, _, _, _, _, _, hdescending, _⟩ =>
    ⟨summaries, hsuccess, hdescending rfl⟩

/-- C10, evaluated where the code departs from it: for the selection `hello` the content
script answers the context-menu action with a message whose action is
`summarizeFromContext`, which the message listener of the background script ignores. -/
theorem C10_context_message_is_ignored :
    contextMenuOnClicked "summarizeSelection" = some "summarizeSelection" ∧
    contentOnMessage "summarizeSelection" "hello" = some ⟨"summarizeFromContext", "hello"⟩ ∧
    onMessage "summarizeFromContext" = .ignored ∧
    onMessage "summarizeFromContext" ≠ .summarization := by
  decide

end REEase
